import Mathlib

/-!
Verification of the Unspend document-reconciliation core.

This file gives a shallow embedding, in Lean 4, of the parts of the
`invoice-reconciliation-platform` backend that the verified claims are about:

* `backend/cache_manager.py` — `MemoryCache` (the L1 in-memory LRU cache);
* `backend/batch_processor.py` — `JobQueue` (the priority job queue);
* `backend/llm_client.py` — `LLMClient.call` (cache / JSON-repair path) and
  `LLMClient._needs_escalation`;
* `backend/reconciliation_engine.py` — `ReconciliationEngine.reconcile` and its
  helpers (`_match_vendor`, `_is_contract_active`, `_match_lines`, the rule
  checks and `_generate_payment_preview`).

Modelling conventions, used throughout:

* Python machine floats are modelled as exact rationals `ℚ` (all numbers
  appearing in the code and the claims are small decimals);
* a Python dict field access `d.get('f', {}).get('value', dflt)` is modelled
  by typing the field as `Option (Option α)`: `none` = key absent,
  `some none` = value `null`, `some (some a)` = value present;
* Python exceptions are modelled with `Except PyErr`; code that the source
  wraps in a `try`/`except` catching the raised class is embedded as a total
  function, code whose exceptions escape is embedded in `Except`;
* the wall clock (`datetime.now()`, `time.time()`) is an explicit argument;
* external collaborators that the repository does not contain (the TF-IDF
  cosine similarity of sklearn, the JSON parser of the standard library, the
  network responses of the OpenAI client, `pickle` serialization sizes) are
  universally quantified parameters of the embedding, so every theorem holds
  for every behaviour of the collaborator.
-/

deriving instance DecidableEq for Except

namespace Unspend

set_option maxRecDepth 20000

attribute [local semireducible] Rat.mul Rat.add Rat.sub Rat.inv Rat.ofScientific

/-- Python exception classes that escape or are caught in the embedded code. -/
inductive PyErr where
  | attributeError
  | typeError
  | valueError
deriving DecidableEq, Repr

/-- A confidence-wrapped string field: `none` = key absent, `some none` =
`"value": null`, `some (some s)` = `"value": s`. -/
abbrev SField := Option (Option String)

/-- A confidence-wrapped numeric field, same convention as `SField`. -/
abbrev NField := Option (Option ℚ)

/-- Embedding of `d.get('f', {}).get('value', dflt)` for a string field: a missing key
yields the (string) default, a present key yields the stored value, which may
be Python `None` (`Option.none` here). -/
def sfGet (f : SField) (dflt : String) : Option String :=
  match f with
  | none => some dflt
  | some v => v

/-- Embedding of `d.get('f', {}).get('value', dflt)` for a numeric field. -/
def nfGet (f : NField) (dflt : Option ℚ) : Option ℚ :=
  match f with
  | none => dflt
  | some v => v

/-- Python `float(x)` applied to the result of a `.get`: a number converts to
itself, `None` raises `TypeError`.  (String-typed payloads in numeric fields
are outside the embedded input space.) -/
def pyFloat (v : Option ℚ) : Except PyErr ℚ :=
  match v with
  | some q => .ok q
  | none => .error .typeError

/-- Python `abs()` on a float, in the exact-rational model. -/
def pyAbs (q : ℚ) : ℚ := if q < 0 then -q else q

/-- Python truthiness of a `.get('value')` result: `None`, `0` and `""` are
falsy. -/
def truthyQ (v : Option ℚ) : Option ℚ :=
  match v with
  | some q => if q = 0 then none else some q
  | none => none

/-- Python truthiness for an optional string: `None` and `""` are falsy. -/
def truthyS (v : Option String) : Option String :=
  match v with
  | some s => if s = "" then none else some s
  | none => none

/-- Character-list prefix test (helper for the fuelled replace). -/
def hasPre : List Char → List Char → Bool
  | [], _ => true
  | _ :: _, [] => false
  | p :: ps, c :: cs => p == c && hasPre ps cs

/-- One fuelled pass of Python `str.replace(pat, rep)` over a character list:
left-to-right, non-overlapping.  The fuel is the length of the text, which
bounds the number of steps; structural recursion keeps the definition
kernel-reducible. -/
def repChars (pat rep : List Char) : ℕ → List Char → List Char
  | _, [] => []
  | 0, cs => cs
  | fuel + 1, c :: cs =>
    if pat ≠ [] ∧ hasPre pat (c :: cs) then
      rep ++ repChars pat rep fuel ((c :: cs).drop pat.length)
    else
      c :: repChars pat rep fuel cs

/-- Python `s.replace(pat, rep)`. -/
def strReplace (s pat rep : String) : String :=
  String.mk (repChars pat.toList rep.toList s.toList.length s.toList)

/-- Python `s.strip()`: remove leading and trailing whitespace. -/
def strStrip (s : String) : String :=
  String.mk (((s.toList.dropWhile Char.isWhitespace).reverse.dropWhile
    Char.isWhitespace).reverse)

/-- Python `s.lower()` (ASCII, which is all the code compares). -/
def strLower (s : String) : String :=
  String.mk (s.toList.map Char.toLower)

/-- Round half to even to an integer (the rounding of Python float
formatting, transported to the exact-rational model). -/
def roundHalfEven (q : ℚ) : ℤ :=
  let f : ℤ := ⌊q⌋
  let frac : ℚ := q - f
  if frac < 1 / 2 then f
  else if 1 / 2 < frac then f + 1
  else if f % 2 = 0 then f else f + 1

/-- Python `f"{q:.2f}"` on the exact-rational model of the float `q`. -/
def fmt2 (q : ℚ) : String :=
  let n := roundHalfEven (q * 100)
  let sign := if n < 0 then "-" else ""
  let m := n.natAbs
  let ip := m / 100
  let fp := m % 100
  sign ++ Nat.repr ip ++ "." ++ (if fp < 10 then "0" else "") ++ Nat.repr fp

/-! ## `cache_manager.MemoryCache`

The L1 in-memory cache.  The stored value is the serialized (and possibly
compressed) blob; its content never matters to the claims, so it is a type
parameter `V`, and its byte size — `len(pickle.dumps(value))` after the
optional `zlib` compression of `MemoryCache.set` — is an explicit argument of
`mcSet`.  Timestamps (`datetime.now()`) are an explicit `now : ℕ` argument.
`self.data` is a Python dict, modelled as its insertion-ordered association
list. -/

/-- Embedding of `cache_manager.CacheEntry` (the `value` blob abstracted to `V`). -/
structure MCEntry (V : Type) where
  value : V
  created_at : ℕ
  last_accessed : ℕ
  access_count : ℕ
  ttl : Option ℕ
  size_bytes : ℕ
deriving DecidableEq, Repr

/-- Embedding of `cache_manager.MemoryCache` state. -/
structure MemoryCache (V : Type) where
  max_size : ℕ
  max_memory_bytes : ℕ
  data : List (String × MCEntry V)
  current_memory : ℤ
deriving DecidableEq, Repr

variable {V : Type}

/-- First-match dict lookup, `self.data.get(key)` / `self.data[key]`. -/
def lookupEntry : List (String × MCEntry V) → String → Option (MCEntry V)
  | [], _ => none
  | (k, e) :: rest, key => if k = key then some e else lookupEntry rest key

/-- Embedding of `del self.data[key]`: remove the (first) binding of `key`. -/
def eraseKey : List (String × MCEntry V) → String → List (String × MCEntry V)
  | [], _ => []
  | (k, e) :: rest, key =>
    if k = key then rest else (k, e) :: eraseKey rest key

/-- In-place update of the entry bound to `key` (dict position preserved),
used for `entry.touch()`. -/
def setEntry : List (String × MCEntry V) → String → MCEntry V →
    List (String × MCEntry V)
  | [], _, _ => []
  | (k, e) :: rest, key, e2 =>
    if k = key then (k, e2) :: rest else (k, e) :: setEntry rest key e2

/-- Sum of `size_bytes` over all stored entries (as `ℤ`, the type of the
`current_memory` counter — a Python int). -/
def sumSizes : List (String × MCEntry V) → ℤ
  | [] => 0
  | (_, e) :: rest => (e.size_bytes : ℤ) + sumSizes rest

/-- Embedding of `CacheEntry.is_expired` at time `now`. -/
def mcExpired (e : MCEntry V) (now : ℕ) : Bool :=
  match e.ttl with
  | none => false
  | some t => decide (now - e.created_at > t)

/-- Embedding of `MemoryCache._remove_entry`. -/
def mcRemoveEntry (st : MemoryCache V) (key : String) : MemoryCache V :=
  match lookupEntry st.data key with
  | some e =>
    { st with
      data := eraseKey st.data key
      current_memory := st.current_memory - e.size_bytes }
  | none => st

/-- Embedding of `min(self.data.keys(), key=lambda k: self.data[k].last_accessed)`:
the first pair with minimal `last_accessed` (Python `min` keeps the first
minimum in iteration order). -/
def selectLRU : List (String × MCEntry V) → Option (String × MCEntry V)
  | [] => none
  | p :: rest =>
    match selectLRU rest with
    | some q =>
      if p.2.last_accessed ≤ q.2.last_accessed then some p else some q
    | none => some p

/-- Embedding of `MemoryCache._evict_lru`. -/
def mcEvictLRU (st : MemoryCache V) : MemoryCache V :=
  match selectLRU st.data with
  | some (k, _) => mcRemoveEntry st k
  | none => st

/-- The first `while` of `_ensure_capacity` (memory cap), with fuel: each
iteration on a non-empty dict removes one entry, so `st.data.length` steps
always reach the loop's exit condition. -/
def evictMemLoop : ℕ → MemoryCache V → ℕ → MemoryCache V
  | 0, st, _ => st
  | fuel + 1, st, newSize =>
    if st.current_memory + (newSize : ℤ) > (st.max_memory_bytes : ℤ) ∧
        st.data.length ≠ 0 then
      evictMemLoop fuel (mcEvictLRU st) newSize
    else st

/-- The second `while` of `_ensure_capacity` (entry-count cap), with fuel. -/
def evictCountLoop : ℕ → MemoryCache V → MemoryCache V
  | 0, st => st
  | fuel + 1, st =>
    if st.data.length ≥ st.max_size ∧ st.data.length ≠ 0 then
      evictCountLoop fuel (mcEvictLRU st)
    else st

/-- Embedding of `MemoryCache._ensure_capacity`. -/
def mcEnsureCapacity (st : MemoryCache V) (newSize : ℕ) : MemoryCache V :=
  let st1 := evictMemLoop st.data.length st newSize
  evictCountLoop st1.data.length st1

/-- Embedding of `MemoryCache.set` at time `now`; `size` is the serialized byte size of
the stored value (after the optional compression). -/
def mcSet (st : MemoryCache V) (key : String) (v : V) (ttl : Option ℕ)
    (size : ℕ) (now : ℕ) : MemoryCache V :=
  let st1 := mcEnsureCapacity st size
  let st2 :=
    if (lookupEntry st1.data key).isSome then mcRemoveEntry st1 key else st1
  { st2 with
    data := st2.data ++
      [(key, ⟨v, now, now, 0, ttl, size⟩)]
    current_memory := st2.current_memory + size }

/-- Embedding of `MemoryCache.get` at time `now`: returns the (touched) entry on a live
hit, removes the entry on an expired hit. -/
def mcGet (st : MemoryCache V) (key : String) (now : ℕ) :
    Option (MCEntry V) × MemoryCache V :=
  match lookupEntry st.data key with
  | some e =>
    if mcExpired e now then
      (none, mcRemoveEntry st key)
    else
      let e2 := { e with last_accessed := now, access_count := e.access_count + 1 }
      (some e2, { st with data := setEntry st.data key e2 })
  | none => (none, st)

/-- Embedding of `MemoryCache.delete`. -/
def mcDelete (st : MemoryCache V) (key : String) : Bool × MemoryCache V :=
  if (lookupEntry st.data key).isSome then (true, mcRemoveEntry st key)
  else (false, st)

/-- Embedding of `MemoryCache.clear`. -/
def mcClear (st : MemoryCache V) : MemoryCache V :=
  { st with data := [], current_memory := 0 }

/-- The accounting invariant of claim C10: the `current_memory` counter
equals the sum of `size_bytes` over the stored entries. -/
def mcInv (st : MemoryCache V) : Prop :=
  st.current_memory = sumSizes st.data

/-! ## `batch_processor.JobQueue`

`JobQueue.enqueue` pushes `(5 - priority.value, created_at.timestamp(), job)`
into a `queue.PriorityQueue`, and `dequeue` pops the tuple-minimal item.  The
priority queue is modelled by keeping the items in arrival order and popping
a minimal item; among items with an equal `(inverted priority, timestamp)`
key CPython's heap order is unspecified (comparison even falls through to the
unorderable `BatchJob` object), so the model fixes the earliest-enqueued
minimal item and no theorem depends on the order among full ties. -/

/-- Embedding of `batch_processor.JobPriority`. -/
inductive JobPriority where
  | low
  | normal
  | high
  | urgent
deriving DecidableEq, Repr

/-- The `.value` of the priority enum. -/
def JobPriority.val : JobPriority → ℕ
  | .low => 1
  | .normal => 2
  | .high => 3
  | .urgent => 4

/-- The fields of `BatchJob` that drive queue ordering (id stands for the
rest of the payload; `created_at` is the float timestamp). -/
structure QJob where
  id : String
  priority : JobPriority
  created_at : ℚ
deriving DecidableEq, Repr

/-- The heap key pushed by `JobQueue.enqueue`: `(5 - priority.value,
created_at.timestamp())`. -/
def jobKey (j : QJob) : ℕ × ℚ := (5 - j.priority.val, j.created_at)

/-- Lexicographic order on heap keys — the order `queue.PriorityQueue` pops
tuples in. -/
def keyLe (a b : ℕ × ℚ) : Prop :=
  a.1 < b.1 ∨ (a.1 = b.1 ∧ a.2 ≤ b.2)

instance keyLeDec (a b : ℕ × ℚ) : Decidable (keyLe a b) := by
  unfold keyLe; infer_instance

/-- Remove a minimal-key job from the queue (the pop of the priority queue);
returns the job and the remaining queue, `none` on an empty queue. -/
def selectMinJob : List QJob → Option (QJob × List QJob)
  | [] => none
  | j :: rest =>
    match selectMinJob rest with
    | none => some (j, [])
    | some (m, rest2) =>
      if keyLe (jobKey j) (jobKey m) then some (j, rest)
      else some (m, j :: rest2)

/-- Fuelled repeated dequeue. -/
def drainFuel : ℕ → List QJob → List QJob
  | 0, _ => []
  | fuel + 1, q =>
    match selectMinJob q with
    | none => []
    | some (m, q2) => m :: drainFuel fuel q2

/-- Dequeue every job of the queue, in the order the worker pool receives
them. -/
def drain (q : List QJob) : List QJob := drainFuel q.length q

/-! ## `llm_client.LLMClient.call`

The synchronous `call` path: cache lookup, first completion request, JSON
parse, one repair request, giving up with `({}, False)`.  The JSON parser is
a parameter `parse : String → Option J` (any parser, any parse-result type);
the two network responses are a `CallEnv` (`none` = the request raised).
The md5 cache key of `f"{model}_{system}_{user}_{temperature}_{seed}"` is
modelled by the tuple itself; the engine is embedded with `database = None`
(the constructor default), so only the in-memory legacy cache is consulted.
The result returns the issued requests as a trace, so that "no external call"
claims are statements about the trace. -/

/-- The cache key tuple. -/
structure CallKey where
  model : String
  system : String
  user : String
  temperature : ℚ
  seed : Option ℤ
deriving DecidableEq, Repr

/-- One outbound `chat.completions.create` request: which model it targets
and whether it is the JSON-repair request (message bodies elided). -/
structure ApiCall where
  model : String
  isRepair : Bool
deriving DecidableEq, Repr

/-- The two network responses the environment may supply for one `call`
invocation: the content of the first completion and of the repair completion
(`none` = the request raised an exception, swallowed by `call`'s outer
`except Exception`). -/
structure CallEnv where
  firstResp : Option String
  repairResp : Option String

/-- Legacy in-memory cache `self.cache` (newest binding first, as dict
assignment overwrites). -/
def cacheLookup {J : Type} (cache : List (CallKey × J)) (k : CallKey) :
    Option J :=
  match cache with
  | [] => none
  | (k2, j) :: rest => if k2 = k then some j else cacheLookup rest k

/-- Markdown cleanup of a completion: `strip`, then strip a ```` ```json ````
or ```` ``` ```` fence. -/
def cleanResponse (s : String) : String :=
  let t := strStrip s
  if t.startsWith "```json" then
    strStrip (strReplace (strReplace t "```json" "") "```" "")
  else if t.startsWith "```" then
    strStrip (strReplace t "```" "")
  else t

/-- Embedding of `LLMClient.call` (with the API key set and `database = None`): returns
`((parsed result, success flag), issued requests, new in-memory cache)`.
`none` as a result models the empty dict `{}`. -/
def llmCall {J : Type} (parse : String → Option J) (env : CallEnv)
    (cache : List (CallKey × J)) (model system user : String)
    (temperature : ℚ) (seed : Option ℤ) :
    (Option J × Bool) × List ApiCall × List (CallKey × J) :=
  let key : CallKey := ⟨model, system, user, temperature, seed⟩
  match cacheLookup cache key with
  | some j => ((some j, true), [], cache)
  | none =>
    match env.firstResp with
    | none => ((none, false), [⟨model, false⟩], cache)
    | some raw =>
      match parse (cleanResponse raw) with
      | some j => ((some j, true), [⟨model, false⟩], (key, j) :: cache)
      | none =>
        match env.repairResp with
        | none => ((none, false), [⟨model, false⟩, ⟨model, true⟩], cache)
        | some rraw =>
          match parse (cleanResponse rraw) with
          | some j =>
            ((some j, true), [⟨model, false⟩, ⟨model, true⟩], (key, j) :: cache)
          | none => ((none, false), [⟨model, false⟩, ⟨model, true⟩], cache)

/-! ## `llm_client.LLMClient._needs_escalation` -/

/-- A field of an extraction-result dict as `_needs_escalation` reads it:
`confidence` is the value of the `'confidence'` key when present. -/
structure ConfF where
  confidence : Option ℚ
deriving Repr

/-- An extraction-result line as `_needs_escalation` reads it. -/
structure ExLine where
  qty : NField
  unit_price : NField
  line_total : NField
deriving Repr

/-- An extraction-result dict as `_needs_escalation` reads it: each top-level
key may be absent. -/
structure ExResult where
  vendor : Option ConfF
  invoice_no : Option ConfF
  service_category : Option ConfF
  lines : Option (List ExLine)
deriving Repr

/-- The per-field confidence test of the required-fields loop:
`result[field].get('confidence', 0.0) < 0.7` for a present field. -/
def confBelow (f : Option ConfF) : Bool :=
  match f with
  | some c => decide ((c.confidence.getD 0) < 7 / 10)
  | none => false

/-- The per-line arithmetic test: runs only when `qty`, `unit_price` and
`line_total` are all truthy (present, non-null and non-zero). -/
def lineMismatch (l : ExLine) : Bool :=
  match truthyQ (nfGet l.qty none), truthyQ (nfGet l.unit_price none),
      truthyQ (nfGet l.line_total none) with
  | some q, some p, some t => decide (pyAbs (q * p - t) > 1 / 100)
  | _, _, _ => false

/-- Embedding of `required_fields = ['vendor', 'invoice_no'] if 'invoice_no' in result
else ['vendor', 'service_category']`. -/
def requiredFields (r : ExResult) : List (Option ConfF) :=
  if r.invoice_no.isSome then [r.vendor, r.invoice_no]
  else [r.vendor, r.service_category]

/-- Embedding of `LLMClient._needs_escalation`. -/
def needsEscalation (r : ExResult) : Bool :=
  if (requiredFields r).any confBelow then true
  else if (r.lines.getD []).any lineMismatch then true
  else false

/-- The line-check condition exactly as claim C6 words it: `qty`,
`unit_price` and `line_total` all *present* (non-null) and
`|qty × unit_price − line_total|` exceeds $0.01. -/
def claimLineMismatch (l : ExLine) : Bool :=
  match l.qty, l.unit_price, l.line_total with
  | some (some q), some (some p), some (some t) =>
    decide (pyAbs (q * p - t) > 1 / 100)
  | _, _, _ => false

/-- Embedding of `_needs_escalation` as claim C6 states it (differs from the code only in
the line-check presence test). -/
def claimNeedsEscalation (r : ExResult) : Bool :=
  (requiredFields r).any confBelow || (r.lines.getD []).any claimLineMismatch

/-! ## `schemas.py` — the reconciliation data model -/

/-- Embedding of `schemas.MatchMethodType`. -/
inductive MatchMethod where
  | code
  | description
  | unit_price_tolerance
deriving DecidableEq, Repr

/-- Embedding of `schemas.Match`. -/
structure RMatch where
  invoice_line_index : ℕ
  contract_term_index : ℕ
  match_method : MatchMethod
  confidence : ℚ
deriving DecidableEq, Repr

/-- Embedding of `schemas.FlagType` (the members the engine emits). -/
inductive FlagType where
  | overpay_per_unit
  | quantity_variance
  | out_of_scope
  | cap_exceeded
  | date_variance
  | escalation_error
  | duplicate_invoice
deriving DecidableEq, Repr

/-- Embedding of `schemas.SeverityType`. -/
inductive Severity where
  | info
  | warn
  | error
deriving DecidableEq, Repr

/-- Embedding of `schemas.ServiceDates`. -/
structure ServiceDates where
  invoice_start : String := ""
  invoice_end : String := ""
  contract_start : String := ""
  contract_end : String := ""
deriving DecidableEq, Repr

/-- Embedding of `schemas.FlagEvidence`. -/
structure FlagEvidence where
  contract_price : Option ℚ := none
  invoice_price : Option ℚ := none
  delta : Option ℚ := none
  clause_reference : String := ""
  service_dates : ServiceDates := {}
deriving DecidableEq, Repr

/-- Embedding of `schemas.Flag`. -/
structure Flag where
  type : FlagType
  severity : Severity
  summary : String
  evidence : FlagEvidence
deriving DecidableEq, Repr

/-- Embedding of `schemas.PaymentItem`. -/
structure PaymentItem where
  item_code : String
  expected_qty : Option ℚ := none
  expected_unit_price : Option ℚ := none
  expected_total : Option ℚ := none
deriving DecidableEq, Repr

/-- Embedding of `schemas.NextPaymentPreview`. -/
structure NextPaymentPreview where
  period_start : String := ""
  period_end : String := ""
  items : List PaymentItem := []
  subtotal : Option ℚ := none
  taxes : Option ℚ := none
  total : Option ℚ := none
  assumptions : List String := []
deriving DecidableEq, Repr

/-- Embedding of `schemas.ReconciliationResult`. -/
structure ReconciliationResult where
  «matches» : List RMatch := []
  flags : List Flag := []
  next_payment_preview : NextPaymentPreview := {}
deriving DecidableEq, Repr

/-- A contract term, with the fields the engine reads. -/
structure ContractTerm where
  item_code : SField := none
  item_desc : SField := none
  unit : SField := none
  price : NField := none
  max_qty : NField := none
  effective_start : SField := none
  effective_end : SField := none
deriving Repr

/-- A contract document, with the fields the engine reads
(`price_escalation` is omitted: `_check_price_escalation` returns no flag on
every path, see `checkPriceEscalation`). -/
structure Contract where
  vendor : SField := none
  start_date : SField := none
  end_date : SField := none
  cap_total : NField := none
  terms : List ContractTerm := []
deriving Repr

/-- An invoice line, with the fields the engine reads. -/
structure InvoiceLine where
  item_code : SField := none
  item_desc : SField := none
  unit : SField := none
  qty : NField := none
  unit_price : NField := none
  line_total : NField := none
  service_period_start : SField := none
  service_period_end : SField := none
deriving Repr

/-- An invoice document, with the fields the engine reads. -/
structure Invoice where
  vendor : SField := none
  invoice_no : SField := none
  invoice_date : SField := none
  lines : List InvoiceLine := []
deriving Repr

/-- The mutable state of one `ReconciliationEngine` instance (constructed
with the default `database=None`, so the optional vendor registry is absent
and only `processed_invoices` ever changes). -/
structure EngineState where
  vendor_aliases : List (String × List String) := []
  processed_invoices : List String := []
deriving DecidableEq, Repr

/-! ## Dates (`datetime.fromisoformat` on the engine's inputs) -/

/-- A calendar date. -/
structure PyDate where
  year : ℕ
  month : ℕ
  day : ℕ
deriving DecidableEq, Repr

/-- Gregorian leap year. -/
def isLeap (y : ℕ) : Bool := y % 4 = 0 && (y % 100 ≠ 0 || y % 400 = 0)

/-- Days in a month. -/
def daysInMonth (y m : ℕ) : ℕ :=
  if m = 1 ∨ m = 3 ∨ m = 5 ∨ m = 7 ∨ m = 8 ∨ m = 10 ∨ m = 12 then 31
  else if m = 4 ∨ m = 6 ∨ m = 9 ∨ m = 11 then 30
  else if isLeap y then 29 else 28

/-- Numeric value of a digit character. -/
def digitVal (c : Char) : ℕ := c.toNat - 48

/-- Embedding of `datetime.fromisoformat`, modelled for the plain `YYYY-MM-DD` dates the
documents carry; every other shape is a parse failure (`ValueError`), which
each caller of the engine catches permissively. -/
def parseDate (s : String) : Option PyDate :=
  match s.toList with
  | [y1, y2, y3, y4, h1, m1, m2, h2, d1, d2] =>
    if y1.isDigit ∧ y2.isDigit ∧ y3.isDigit ∧ y4.isDigit ∧ h1 = '-' ∧
        m1.isDigit ∧ m2.isDigit ∧ h2 = '-' ∧ d1.isDigit ∧ d2.isDigit then
      let y := ((digitVal y1 * 10 + digitVal y2) * 10 + digitVal y3) * 10 +
        digitVal y4
      let mo := digitVal m1 * 10 + digitVal m2
      let d := digitVal d1 * 10 + digitVal d2
      if 1 ≤ mo ∧ mo ≤ 12 ∧ 1 ≤ d ∧ d ≤ daysInMonth y mo then
        some ⟨y, mo, d⟩
      else none
    else none
  | _ => none

/-- Datetime comparison (lexicographic on the calendar date). -/
def dateLeB (a b : PyDate) : Bool :=
  a.year < b.year ||
    (a.year = b.year &&
      (a.month < b.month || (a.month = b.month && a.day ≤ b.day)))

/-- The next calendar day. -/
def addDay (d : PyDate) : PyDate :=
  if d.day < daysInMonth d.year d.month then ⟨d.year, d.month, d.day + 1⟩
  else if d.month < 12 then ⟨d.year, d.month + 1, 1⟩
  else ⟨d.year + 1, 1, 1⟩

/-- Embedding of `date + timedelta(days=n)`. -/
def addDays (d : PyDate) : ℕ → PyDate
  | 0 => d
  | n + 1 => addDay (addDays d n)

/-- Zero-padded two-digit rendering. -/
def pad2 (n : ℕ) : String := if n < 10 then "0" ++ Nat.repr n else Nat.repr n

/-- Zero-padded four-digit rendering. -/
def pad4 (n : ℕ) : String :=
  if n < 10 then "000" ++ Nat.repr n
  else if n < 100 then "00" ++ Nat.repr n
  else if n < 1000 then "0" ++ Nat.repr n
  else Nat.repr n

/-- Embedding of `strftime('%Y-%m-%d')`. -/
def fmtDate (d : PyDate) : String :=
  pad4 d.year ++ "-" ++ pad2 d.month ++ "-" ++ pad2 d.day

/-! ## `ReconciliationEngine` — vendor matching and contract activity -/

/-- Embedding of `.get('vendor', {}).get('value', '').lower().strip()`: an absent field
reads as `""`; a null value raises `AttributeError` at `.lower()`. -/
def sLowerStrip (f : SField) : Except PyErr String :=
  match sfGet f "" with
  | none => .error .attributeError
  | some s => .ok (strStrip (strLower s))

/-- Embedding of `.get('value', '').strip()` (the item-code reads of `_match_lines`). -/
def sStripGet (f : SField) : Except PyErr String :=
  match sfGet f "" with
  | none => .error .attributeError
  | some s => .ok (strStrip s)

/-- The legal suffixes stripped by `_clean_business_name`. -/
def bizSuffixes : List String :=
  ["inc", "llc", "corp", "ltd", "company", "co", "incorporated"]

/-- The four replace patterns tried for one suffix. -/
def patternsOf (suf : String) : List String :=
  [" " ++ suf, " " ++ suf ++ ".", ", " ++ suf, ", " ++ suf ++ "."]

/-- Embedding of `re.sub(r'\s+', ' ', s)`: collapse whitespace runs to single spaces. -/
def collapseGo : Bool → List Char → List Char
  | _, [] => []
  | prevWs, c :: cs =>
    if c.isWhitespace then
      if prevWs then collapseGo true cs else ' ' :: collapseGo true cs
    else c :: collapseGo false cs

/-- Embedding of `ReconciliationEngine._clean_business_name`. -/
def cleanBusinessName (name : String) : String :=
  let lowered := strLower name
  let replaced := ((bizSuffixes.map patternsOf).flatten).foldl
    (fun acc pat => strReplace acc pat "") lowered
  let kept := String.mk (replaced.toList.filter
    (fun ch => ch.isAlphanum || ch = '_' || ch.isWhitespace))
  strStrip (String.mk (collapseGo false kept.toList))

/-- Stored-alias lookup in `self.vendor_aliases`. -/
def lookupAlias : List (String × List String) → String → Option (List String)
  | [], _ => none
  | (k, als) :: rest, key =>
    if k = key then some als else lookupAlias rest key

/-- Embedding of `ReconciliationEngine._match_vendor` (with `database = None`, so the
registry lookup is skipped and `_auto_discover_vendor` /
`_auto_create_alias` are no-ops). -/
def matchVendor (st : EngineState) (c : Contract) (i : Invoice) :
    Except PyErr Bool :=
  match sLowerStrip c.vendor with
  | .error e => .error e
  | .ok cv =>
    match sLowerStrip i.vendor with
    | .error e => .error e
    | .ok iv =>
      if cv = "" ∨ iv = "" then .ok false
      else if cv = iv then .ok true
      else
        let aliasHit :=
          match lookupAlias st.vendor_aliases cv with
          | some als => (als.map strLower).contains iv
          | none => false
        if aliasHit then .ok true
        else if cleanBusinessName cv = cleanBusinessName iv then .ok true
        else .ok false

/-- Embedding of `ReconciliationEngine._is_contract_active`: missing dates and parse
failures pass permissively (the whole body is inside a bare
`try`/`except: return True`). -/
def isContractActive (c : Contract) (i : Invoice) : Bool :=
  match truthyS (sfGet i.invoice_date ""), truthyS (sfGet c.start_date ""),
      truthyS (sfGet c.end_date "") with
  | some ds, some ss, some es =>
    match parseDate (strReplace ds "Z" "+00:00"),
        parseDate (strReplace ss "Z" "+00:00"),
        parseDate (strReplace es "Z" "+00:00") with
    | some d, some s, some e => dateLeB s d && dateLeB d e
    | _, _, _ => true
  | _, _, _ => true

/-! ## `ReconciliationEngine._match_lines`

The TF-IDF cosine similarity of `_compute_description_similarity` lives in
sklearn, outside the repository; it is a parameter
`sim : String → String → ℚ` applied to the two raw descriptions, and every
theorem below holds for every `sim`. -/

/-- Embedding of `ReconciliationEngine._check_unit_price_tolerance`: the whole body is in
a bare `try`/`except`, so a null unit (whose `.lower()` raises) and every
falsy field yield `0.0`. -/
def checkUnitPriceTolerance (line : InvoiceLine) (t : ContractTerm) : ℚ :=
  match sfGet line.unit "", sfGet t.unit "" with
  | some iu0, some cu0 =>
    let iu := strLower iu0
    let cu := strLower cu0
    match truthyQ (nfGet line.unit_price none), truthyQ (nfGet t.price none) with
    | some ip, some cp =>
      if iu = "" ∨ cu = "" then 0
      else if iu ≠ cu then 0
      else if pyAbs (ip - cp) ≤ 5 / 100 * cp then 4 / 5
      else 0
    | _, _ => 0
  | _, _ => 0

/-- The running best candidate of the inner loop of `_match_lines`:
`(best_match, best_method)` when a candidate is held, and `best_confidence`.
-/
abbrev BestCand := Option (ℕ × MatchMethod) × ℚ

/-- Priority 2 of the inner loop of `_match_lines`: description similarity
(`similarity > 0.8 and similarity > best_confidence`), run only when both
descriptions are truthy. -/
def descUpdate (sim : String → String → ℚ) (line : InvoiceLine)
    (t : ContractTerm) (idx : ℕ) (best : BestCand) : BestCand :=
  match truthyS (sfGet line.item_desc ""), truthyS (sfGet t.item_desc "") with
  | some d1, some d2 =>
    let s := sim d1 d2
    if s > 8 / 10 ∧ s > best.2 then (some (idx, .description), s) else best
  | _, _ => best

/-- Python `not best_match`: true when no candidate is held *or* when the
held contract index is `0` (integer falsiness). -/
def bestIsFalsy (best : BestCand) : Bool :=
  match best.1 with
  | none => true
  | some (k, _) => decide (k = 0)

/-- Priority 3 of the inner loop of `_match_lines`: unit+price tolerance,
guarded by `if not best_match or best_confidence < 0.7`. -/
def toleranceUpdate (line : InvoiceLine) (t : ContractTerm) (idx : ℕ)
    (best : BestCand) : BestCand :=
  if bestIsFalsy best = true ∨ best.2 < 7 / 10 then
    let upm := checkUnitPriceTolerance line t
    if upm ≠ 0 ∧ upm > best.2 then (some (idx, .unit_price_tolerance), upm)
    else best
  else best

/-- The inner `for cont_idx, contract_term in enumerate(contract_terms)`
loop of `_match_lines` for one invoice line: already-used terms are skipped,
an exact code match accepts immediately (`break`), then the description and
tolerance updates run in priority order. -/
def innerScan (sim : String → String → ℚ) (used : List ℕ) (line : InvoiceLine) :
    List (ℕ × ContractTerm) → BestCand → Except PyErr BestCand
  | [], best => .ok best
  | (idx, t) :: rest, best =>
    if used.contains idx then innerScan sim used line rest best
    else
      match sStripGet line.item_code with
      | .error e => .error e
      | .ok invCode =>
        match sStripGet t.item_code with
        | .error e => .error e
        | .ok contCode =>
          if invCode ≠ "" ∧ contCode ≠ "" ∧
              strLower invCode = strLower contCode then
            .ok (some (idx, .code), 1)
          else
            innerScan sim used line rest
              (toleranceUpdate line t idx (descUpdate sim line t idx best))

/-- The outer loop of `_match_lines`: accept the best candidate when its
confidence is at least `0.6` and mark its contract term as used. -/
def matchLinesGo (sim : String → String → ℚ) (terms : List (ℕ × ContractTerm)) :
    List (ℕ × InvoiceLine) → List ℕ → Except PyErr (List RMatch)
  | [], _ => .ok []
  | (li, line) :: rest, used =>
    match innerScan sim used line terms (none, 0) with
    | .error e => .error e
    | .ok (some (k, meth), conf) =>
      if conf ≥ 3 / 5 then
        match matchLinesGo sim terms rest (k :: used) with
        | .error e => .error e
        | .ok ms => .ok (⟨li, k, meth, conf⟩ :: ms)
      else matchLinesGo sim terms rest used
    | .ok (none, _) => matchLinesGo sim terms rest used

/-- Embedding of `ReconciliationEngine._match_lines`. -/
def matchLines (sim : String → String → ℚ) (c : Contract) (i : Invoice) :
    Except PyErr (List RMatch) :=
  matchLinesGo sim c.terms.enum i.lines.enum []

/-! ## `ReconciliationEngine._validate_rules` — the seven rule checks -/

/-- Display rendering of a Python number in an f-string (exact for
two-decimal values; only feeds flag summaries). -/
def qRepr (q : ℚ) : String :=
  if q.den = 1 then
    (if q.num < 0 then "-" else "") ++ Nat.repr q.num.natAbs ++ ".0"
  else fmt2 q

/-- The flag of `_check_overpay_per_unit`. -/
def overpayFlag (ip cp : ℚ) : Flag where
  type := .overpay_per_unit
  severity := .error
  summary := "Unit price $" ++ fmt2 ip ++ " exceeds contract price $" ++ fmt2 cp
  evidence :=
    { contract_price := some cp, invoice_price := some ip, delta := some (ip - cp) }

/-- Embedding of `ReconciliationEngine._check_overpay_per_unit`.  The `except` clause
catches `ValueError`/`IndexError`/`KeyError` (an out-of-range index skips the
match), but the `TypeError` of `float(None)` — a null `unit_price` or
`price` — escapes. -/
def checkOverpayPerUnit (c : Contract) (i : Invoice) :
    List RMatch → Except PyErr (List Flag)
  | [] => .ok []
  | m :: ms =>
    match i.lines.get? m.invoice_line_index, c.terms.get? m.contract_term_index with
    | some line, some t =>
      match pyFloat (nfGet line.unit_price (some 0)) with
      | .error e => .error e
      | .ok ip =>
        match pyFloat (nfGet t.price (some 0)) with
        | .error e => .error e
        | .ok cp =>
          match checkOverpayPerUnit c i ms with
          | .error e => .error e
          | .ok rest =>
            if ip > cp * (101 / 100) then .ok (overpayFlag ip cp :: rest)
            else .ok rest
    | _, _ => checkOverpayPerUnit c i ms

/-- The flag of `_check_quantity_variance`. -/
def qtyFlag (iq mq : ℚ) : Flag where
  type := .quantity_variance
  severity := .warn
  summary := "Quantity " ++ qRepr iq ++ " exceeds maximum allowed " ++ qRepr mq
  evidence := {}

/-- Embedding of `ReconciliationEngine._check_quantity_variance` (same `except` shape as
the overpay check: `float(None)` on a null `qty` escapes). -/
def checkQuantityVariance (c : Contract) (i : Invoice) :
    List RMatch → Except PyErr (List Flag)
  | [] => .ok []
  | m :: ms =>
    match i.lines.get? m.invoice_line_index, c.terms.get? m.contract_term_index with
    | some line, some t =>
      match pyFloat (nfGet line.qty (some 0)) with
      | .error e => .error e
      | .ok iq =>
        match checkQuantityVariance c i ms with
        | .error e => .error e
        | .ok rest =>
          match truthyQ (nfGet t.max_qty none) with
          | some mq =>
            if iq > mq then .ok (qtyFlag iq mq :: rest) else .ok rest
          | none => .ok rest
    | _, _ => checkQuantityVariance c i ms

/-- The flag of `_check_out_of_scope`. -/
def outOfScopeFlag (desc : String) : Flag where
  type := .out_of_scope
  severity := .error
  summary := "Invoice line '" ++ desc ++ "' not found in contract terms"
  evidence := {}

/-- The f-string rendering of `line.get('item_desc', {}).get('value',
'Unknown item')` (a null value prints as `None`). -/
def descOrUnknown (line : InvoiceLine) : String :=
  match sfGet line.item_desc "Unknown item" with
  | none => "None"
  | some s => s

/-- Embedding of `ReconciliationEngine._check_out_of_scope`: one ERROR per unmatched
invoice line. -/
def checkOutOfScope (i : Invoice) (ms : List RMatch) : List Flag :=
  (i.lines.enum.filter
    (fun p => !(ms.any (fun m => m.invoice_line_index == p.1)))).map
    (fun p => outOfScopeFlag (descOrUnknown p.2))

/-- Sum of the truthy `line_total` values (`float(line_total) if line_total
else 0`), used by the cap and duplicate checks. -/
def invoiceLinesTotal (i : Invoice) : ℚ :=
  i.lines.foldl
    (fun acc line =>
      match truthyQ (nfGet line.line_total (some 0)) with
      | some lt => acc + lt
      | none => acc) 0

/-- The flag of `_check_cap_exceeded`. -/
def capFlag (total cap : ℚ) : Flag where
  type := .cap_exceeded
  severity := .error
  summary := "Invoice total $" ++ fmt2 total ++ " exceeds contract cap $" ++ fmt2 cap
  evidence :=
    { contract_price := some cap, invoice_price := some total,
      delta := some (total - cap) }

/-- Embedding of `ReconciliationEngine._check_cap_exceeded` (a falsy `cap_total` — absent,
null or zero — disables the rule). -/
def checkCapExceeded (c : Contract) (i : Invoice) : List Flag :=
  match truthyQ (nfGet c.cap_total none) with
  | none => []
  | some cap =>
    let total := invoiceLinesTotal i
    if total > cap then [capFlag total cap] else []

/-- Embedding of `ReconciliationEngine._check_price_escalation`: both the
no-escalation branch and the simplified-check branch return the empty flag
list, so the rule is a documented no-op. -/
def checkPriceEscalation (_c : Contract) : List Flag := []

/-- The flag of `_check_service_dates`. -/
def svcFlag (istart iend cstart cend : String) : Flag where
  type := .date_variance
  severity := .warn
  summary := "Service period is outside contract term effective dates"
  evidence := { service_dates := ⟨istart, iend, cstart, cend⟩ }

/-- Embedding of `ReconciliationEngine._check_service_dates`: runs only when all four
period bounds are truthy; parse failures raise `ValueError`, which the
`except` clause catches (skip the match). -/
def checkServiceDates (c : Contract) (i : Invoice) : List RMatch → List Flag
  | [] => []
  | m :: ms =>
    let rest := checkServiceDates c i ms
    match i.lines.get? m.invoice_line_index, c.terms.get? m.contract_term_index with
    | some line, some t =>
      match truthyS line.service_period_start.join,
          truthyS line.service_period_end.join,
          truthyS t.effective_start.join, truthyS t.effective_end.join with
      | some istart, some iend, some cstart, some cend =>
        match parseDate (strReplace istart "Z" "+00:00"),
            parseDate (strReplace iend "Z" "+00:00"),
            parseDate (strReplace cstart "Z" "+00:00"),
            parseDate (strReplace cend "Z" "+00:00") with
        | some isd, some ied, some csd, some ced =>
          if !(dateLeB csd isd && dateLeB isd ced &&
              dateLeB csd ied && dateLeB ied ced) then
            svcFlag istart iend cstart cend :: rest
          else rest
        | _, _, _, _ => rest
      | _, _, _, _ => rest
    | _, _ => rest

/-- The composite key of `_check_duplicate_invoice`:
`f"{vendor}_{invoice_no}_{total_amount:.2f}"` (a null value prints as
`None`). -/
def invoiceKey (i : Invoice) : String :=
  let vendor :=
    match sfGet i.vendor "" with
    | none => "None"
    | some s => s
  let ino :=
    match sfGet i.invoice_no "" with
    | none => "None"
    | some s => s
  vendor ++ "_" ++ ino ++ "_" ++ fmt2 (invoiceLinesTotal i)

/-- The flag of `_check_duplicate_invoice`. -/
def dupFlag (i : Invoice) : Flag where
  type := .duplicate_invoice
  severity := .error
  summary :=
    let vendor :=
      match sfGet i.vendor "" with
      | none => "None"
      | some s => s
    let ino :=
      match sfGet i.invoice_no "" with
      | none => "None"
      | some s => s
    "Duplicate invoice detected: " ++ ino ++ " from " ++ vendor
  evidence := {}

/-- Embedding of `ReconciliationEngine._check_duplicate_invoice`: flag when the key was
seen in this engine instance's lifetime, and record the key afterwards in
either case. -/
def checkDuplicateInvoice (st : EngineState) (i : Invoice) :
    List Flag × EngineState :=
  let key := invoiceKey i
  let flags := if st.processed_invoices.contains key then [dupFlag i] else []
  (flags, { st with processed_invoices := st.processed_invoices ++ [key] })

/-- Embedding of `ReconciliationEngine._validate_rules`: all seven rules evaluated, flags
concatenated in rule order. -/
def validateRules (st : EngineState) (c : Contract) (i : Invoice)
    (ms : List RMatch) : Except PyErr (List Flag × EngineState) :=
  match checkOverpayPerUnit c i ms with
  | .error e => .error e
  | .ok f1 =>
    match checkQuantityVariance c i ms with
    | .error e => .error e
    | .ok f2 =>
      let f3 := checkOutOfScope i ms
      let f4 := checkCapExceeded c i
      let f5 := checkPriceEscalation c
      let f6 := checkServiceDates c i ms
      let p := checkDuplicateInvoice st i
      .ok (f1 ++ f2 ++ f3 ++ f4 ++ f5 ++ f6 ++ p.1, p.2)

/-! ## `ReconciliationEngine._generate_payment_preview` -/

/-- The items loop of the preview.  Reading the term's price runs
`float(...)` on the raw value, whose `TypeError` on a null price is *not* in
the inner `(ValueError, IndexError, KeyError)` handler: it aborts to the
outer `except Exception` (modelled as `Except Unit`).  A null `item_code`
raises a pydantic `ValidationError` (a `ValueError`) at `PaymentItem`
construction — after `subtotal` was already incremented — so the item is
dropped but its price still counts. -/
def previewItemsGo (terms : List ContractTerm) :
    List RMatch → Except Unit (List PaymentItem × ℚ)
  | [] => .ok ([], 0)
  | m :: ms =>
    match terms.get? m.contract_term_index with
    | none => previewItemsGo terms ms
    | some t =>
      match nfGet t.price (some 0) with
      | none => .error ()
      | some price =>
        match previewItemsGo terms ms with
        | .error e => .error e
        | .ok (items, sub) =>
          match sfGet t.item_code "" with
          | none => .ok (items, price + sub)
          | some codeS =>
            .ok (⟨codeS, some 1, some price, some (price * 1)⟩ :: items,
              price + sub)

/-- The `assumptions` list of the preview. -/
def previewAssumptions : List String :=
  ["Based on current contract terms", "Assumes monthly billing cycle",
   "Estimated 10% tax rate", "Quantities based on historical patterns"]

/-- Embedding of `ReconciliationEngine._generate_payment_preview` at wall-clock date
`now`: a parse failure of a present invoice date, or a null matched price,
reaches the outer `except Exception` and yields the default preview. -/
def genPaymentPreview (now : PyDate) (c : Contract) (i : Invoice)
    (ms : List RMatch) : NextPaymentPreview :=
  let periodOpt : Option (PyDate × PyDate) :=
    match truthyS (sfGet i.invoice_date "") with
    | some ds =>
      match parseDate (strReplace ds "Z" "+00:00") with
      | some d => some (addDays d 30, addDays d 60)
      | none => none
    | none => some (now, addDays now 30)
  match periodOpt with
  | none => {}
  | some (ps, pe) =>
    match previewItemsGo c.terms ms with
    | .error _ => {}
    | .ok (items, subtotal) =>
      let taxes := subtotal * (1 / 10)
      { period_start := fmtDate ps
        period_end := fmtDate pe
        items := items
        subtotal := some subtotal
        taxes := some taxes
        total := some (subtotal + taxes)
        assumptions := previewAssumptions }

/-! ## `ReconciliationEngine.reconcile` -/

/-- The terminal result of a vendor mismatch. -/
def vendorMismatchResult : ReconciliationResult where
  «matches» := []
  flags :=
    [{ type := .out_of_scope, severity := .error,
       summary := "Vendor mismatch - invoice and contract are from different vendors",
       evidence := {} }]

/-- Evidence string read for the date-mismatch flag (`.get('value', '')`;
only reachable when the three dates parsed, hence are strings). -/
def svcStr (f : SField) : String := (sfGet f "").getD ""

/-- The terminal result of an inactive contract. -/
def dateMismatchResult (c : Contract) (i : Invoice) : ReconciliationResult where
  «matches» := []
  flags :=
    [{ type := .date_variance, severity := .error,
       summary := "Invoice date is outside contract term",
       evidence :=
         { service_dates :=
           { invoice_start := svcStr i.invoice_date
             invoice_end := ""
             contract_start := svcStr c.start_date
             contract_end := svcStr c.end_date } } }]

/-- Embedding of `ReconciliationEngine.reconcile` for one engine instance in state `st`,
at wall-clock date `now`, with description similarity `sim`.  Returns the
result together with the engine state after the call; a Python exception
escaping `reconcile` is `Except.error`. -/
def reconcile (sim : String → String → ℚ) (now : PyDate) (st : EngineState)
    (c : Contract) (i : Invoice) :
    Except PyErr (ReconciliationResult × EngineState) :=
  match matchVendor st c i with
  | .error e => .error e
  | .ok vm =>
    if vm = false then
      .ok (vendorMismatchResult, st)
    else if isContractActive c i = false then
      .ok (dateMismatchResult c i, st)
    else
      match matchLines sim c i with
      | .error e => .error e
      | .ok ms =>
        match validateRules st c i ms with
        | .error e => .error e
        | .ok p =>
          let preview := genPaymentPreview now c i ms
          .ok
            ({ «matches» := ms, flags := p.1, next_payment_preview := preview },
             p.2)

/-! ## C10 — `MemoryCache` memory accounting -/

theorem sumSizes_erase_of_lookup {V : Type} {l : List (String × MCEntry V)}
    {k : String} {e : MCEntry V} (h : lookupEntry l k = some e) :
    sumSizes (eraseKey l k) = sumSizes l - e.size_bytes := by
  induction l with
  | nil => simp [lookupEntry] at h
  | cons p rest ih =>
    obtain ⟨k2, e2⟩ := p
    by_cases hk : k2 = k
    · simp only [lookupEntry, if_pos hk] at h
      cases h
      simp only [eraseKey, if_pos hk, sumSizes]
      ring
    · simp only [lookupEntry, if_neg hk] at h
      simp only [eraseKey, if_neg hk, sumSizes, ih h]
      ring

theorem sumSizes_setEntry {V : Type} {l : List (String × MCEntry V)}
    {k : String} {e e2 : MCEntry V} (h : lookupEntry l k = some e)
    (hs : e2.size_bytes = e.size_bytes) :
    sumSizes (setEntry l k e2) = sumSizes l := by
  induction l with
  | nil => simp [lookupEntry] at h
  | cons p rest ih =>
    obtain ⟨k2, e3⟩ := p
    by_cases hk : k2 = k
    · simp only [lookupEntry, if_pos hk] at h
      cases h
      simp only [setEntry, if_pos hk, sumSizes, hs]
    · simp only [lookupEntry, if_neg hk] at h
      simp only [setEntry, if_neg hk, sumSizes, ih h]

theorem sumSizes_append {V : Type} (l1 l2 : List (String × MCEntry V)) :
    sumSizes (l1 ++ l2) = sumSizes l1 + sumSizes l2 := by
  induction l1 with
  | nil => simp [sumSizes]
  | cons p rest ih =>
    simp only [List.cons_append, sumSizes]
    simp only [List.append_eq] at *
    omega

theorem mcInv_removeEntry {V : Type} (st : MemoryCache V) (k : String)
    (h : mcInv st) : mcInv (mcRemoveEntry st k) := by
  unfold mcRemoveEntry
  cases he : lookupEntry st.data k with
  | none => exact h
  | some e =>
    simp only [mcInv] at h ⊢
    rw [sumSizes_erase_of_lookup he, h]

theorem mcInv_evictLRU {V : Type} (st : MemoryCache V) (h : mcInv st) :
    mcInv (mcEvictLRU st) := by
  unfold mcEvictLRU
  cases hs : selectLRU st.data with
  | none => exact h
  | some p => exact mcInv_removeEntry st p.1 h

theorem mcInv_evictMemLoop {V : Type} (fuel : ℕ) (st : MemoryCache V)
    (size : ℕ) (h : mcInv st) : mcInv (evictMemLoop fuel st size) := by
  induction fuel generalizing st with
  | zero => exact h
  | succ f ih =>
    unfold evictMemLoop
    split
    · exact ih _ (mcInv_evictLRU st h)
    · exact h

theorem mcInv_evictCountLoop {V : Type} (fuel : ℕ) (st : MemoryCache V)
    (h : mcInv st) : mcInv (evictCountLoop fuel st) := by
  induction fuel generalizing st with
  | zero => exact h
  | succ f ih =>
    unfold evictCountLoop
    split
    · exact ih _ (mcInv_evictLRU st h)
    · exact h

theorem mcInv_ensureCapacity {V : Type} (st : MemoryCache V) (size : ℕ)
    (h : mcInv st) : mcInv (mcEnsureCapacity st size) :=
  mcInv_evictCountLoop _ _ (mcInv_evictMemLoop _ _ _ h)

theorem mcInv_set {V : Type} (st : MemoryCache V) (k : String) (v : V)
    (ttl : Option ℕ) (size now : ℕ) (h : mcInv st) :
    mcInv (mcSet st k v ttl size now) := by
  unfold mcSet
  have h1 : mcInv (mcEnsureCapacity st size) := mcInv_ensureCapacity st size h
  set st1 := mcEnsureCapacity st size with hst1
  have h2 : mcInv (if (lookupEntry st1.data k).isSome then
      mcRemoveEntry st1 k else st1) := by
    split
    · exact mcInv_removeEntry st1 k h1
    · exact h1
  set st2 := if (lookupEntry st1.data k).isSome then mcRemoveEntry st1 k else st1
  simp only [mcInv] at h2 ⊢
  rw [sumSizes_append, h2, sumSizes]
  simp [sumSizes]

theorem mcInv_get {V : Type} (st : MemoryCache V) (k : String) (now : ℕ)
    (h : mcInv st) : mcInv (mcGet st k now).2 := by
  unfold mcGet
  cases he : lookupEntry st.data k with
  | none => exact h
  | some e =>
    by_cases hex : mcExpired e now
    · simp only [if_pos hex]
      exact mcInv_removeEntry st k h
    · simp only [if_neg hex]
      simp only [mcInv] at h ⊢
      exact h.trans (Eq.symm (@sumSizes_setEntry V st.data k e
        ⟨e.value, e.created_at, now, e.access_count + 1, e.ttl, e.size_bytes⟩
        he rfl))

theorem mcInv_delete {V : Type} (st : MemoryCache V) (k : String)
    (h : mcInv st) : mcInv (mcDelete st k).2 := by
  unfold mcDelete
  split
  · exact mcInv_removeEntry st k h
  · exact h

theorem mcInv_clear {V : Type} (st : MemoryCache V) : mcInv (mcClear st) := by
  simp [mcClear, mcInv, sumSizes]

/-- C10: `MemoryCache` maintains the accounting invariant `current_memory =
Σ size_bytes` over the stored entries, and every public operation — `get`
(including its removal of an expired entry), `set` (including eviction and
replacement of an existing key), `delete` and `clear` — preserves it. -/
theorem c10_memory_accounting {V : Type} (st : MemoryCache V) (h : mcInv st) :
    (∀ k now, mcInv (mcGet st k now).2) ∧
    (∀ k v ttl size now, mcInv (mcSet st k v ttl size now)) ∧
    (∀ k, mcInv (mcDelete st k).2) ∧
    mcInv (mcClear st) :=
  ⟨fun k now => mcInv_get st k now h,
   fun k v ttl size now => mcInv_set st k v ttl size now h,
   fun k => mcInv_delete st k h,
   mcInv_clear st⟩

/-- Concrete instantiation of C10: a one-entry cache satisfying the
invariant, on which all four operations preserve it. -/
theorem c10_memory_accounting_witness :
    mcInv (⟨10, 1000, [("a", ⟨(), 0, 0, 0, some 5, 7⟩)], 7⟩ : MemoryCache Unit) ∧
    ((∀ k now,
        mcInv (mcGet (⟨10, 1000, [("a", ⟨(), 0, 0, 0, some 5, 7⟩)], 7⟩ :
          MemoryCache Unit) k now).2) ∧
     (∀ k v ttl size now,
        mcInv (mcSet (⟨10, 1000, [("a", ⟨(), 0, 0, 0, some 5, 7⟩)], 7⟩ :
          MemoryCache Unit) k v ttl size now)) ∧
     (∀ k,
        mcInv (mcDelete (⟨10, 1000, [("a", ⟨(), 0, 0, 0, some 5, 7⟩)], 7⟩ :
          MemoryCache Unit) k).2) ∧
     mcInv (mcClear (⟨10, 1000, [("a", ⟨(), 0, 0, 0, some 5, 7⟩)], 7⟩ :
       MemoryCache Unit))) :=
  ⟨by simp [mcInv, sumSizes],
   c10_memory_accounting _ (by simp [mcInv, sumSizes])⟩

/-! ## C8 — `MemoryCache` LRU eviction -/

theorem eraseKey_length_add_one {V : Type} {l : List (String × MCEntry V)}
    {k : String} {e : MCEntry V} (h : lookupEntry l k = some e) :
    (eraseKey l k).length + 1 = l.length := by
  induction l with
  | nil => simp [lookupEntry] at h
  | cons p rest ih =>
    obtain ⟨k2, e2⟩ := p
    by_cases hk : k2 = k
    · simp [eraseKey, hk]
    · simp only [lookupEntry, if_neg hk] at h
      simp [eraseKey, hk, ih h]

theorem eraseKey_length_le {V : Type} (l : List (String × MCEntry V))
    (k : String) : (eraseKey l k).length ≤ l.length := by
  induction l with
  | nil => simp [eraseKey]
  | cons p rest ih =>
    obtain ⟨k2, e2⟩ := p
    by_cases hk : k2 = k
    · simp [eraseKey, hk]
    · simp only [eraseKey, if_neg hk, List.length_cons]
      omega

theorem selectLRU_eq_none {V : Type} {l : List (String × MCEntry V)}
    (h : selectLRU l = none) : l = [] := by
  cases l with
  | nil => rfl
  | cons a rest =>
    exfalso
    unfold selectLRU at h
    split at h
    · split at h <;> exact Option.noConfusion h
    · exact Option.noConfusion h

theorem selectLRU_mem {V : Type} {l : List (String × MCEntry V)}
    {p : String × MCEntry V} (h : selectLRU l = some p) : p ∈ l := by
  induction l generalizing p with
  | nil => simp [selectLRU] at h
  | cons q rest ih =>
    unfold selectLRU at h
    split at h
    · rename_i m hs
      split at h
      · cases h; simp
      · cases h
        exact List.mem_cons_of_mem q (ih hs)
    · cases h
      simp

theorem lookup_isSome_of_mem {V : Type} {l : List (String × MCEntry V)}
    {p : String × MCEntry V} (h : p ∈ l) : (lookupEntry l p.1).isSome := by
  induction l with
  | nil => simp at h
  | cons q rest ih =>
    rcases List.mem_cons.mp h with h1 | h2
    · subst h1
      obtain ⟨k2, e2⟩ := p
      simp [lookupEntry]
    · obtain ⟨k2, e2⟩ := q
      unfold lookupEntry
      by_cases hk : k2 = p.1
      · simp [hk]
      · simp only [if_neg hk]
        exact ih h2

theorem selectLRU_min {V : Type} {l : List (String × MCEntry V)}
    {p : String × MCEntry V} (h : selectLRU l = some p) :
    ∀ q ∈ l, p.2.last_accessed ≤ q.2.last_accessed := by
  induction l generalizing p with
  | nil => simp [selectLRU] at h
  | cons a rest ih =>
    intro q hq
    unfold selectLRU at h
    split at h
    · rename_i m hs
      split at h
      · rename_i hle
        cases h
        rcases List.mem_cons.mp hq with h1 | h2
        · subst h1; exact le_refl _
        · exact le_trans hle (ih hs q h2)
      · rename_i hle
        cases h
        rcases List.mem_cons.mp hq with h1 | h2
        · subst h1; omega
        · exact ih hs q h2
    · rename_i hs
      cases h
      have hrest := selectLRU_eq_none hs
      subst hrest
      simp at hq
      subst hq
      exact le_refl _

theorem selectLRU_of_ne_nil {V : Type} {l : List (String × MCEntry V)}
    (h : l ≠ []) : ∃ p, selectLRU l = some p := by
  cases h2 : selectLRU l with
  | some p => exact ⟨p, rfl⟩
  | none => exact absurd (selectLRU_eq_none h2) h

theorem mcRemoveEntry_max_size {V : Type} (st : MemoryCache V) (k : String) :
    (mcRemoveEntry st k).max_size = st.max_size := by
  unfold mcRemoveEntry
  cases lookupEntry st.data k <;> rfl

theorem mcEvictLRU_max_size {V : Type} (st : MemoryCache V) :
    (mcEvictLRU st).max_size = st.max_size := by
  unfold mcEvictLRU
  cases selectLRU st.data with
  | none => rfl
  | some p => exact mcRemoveEntry_max_size st p.1

theorem evictMemLoop_max_size {V : Type} (fuel : ℕ) (st : MemoryCache V)
    (size : ℕ) : (evictMemLoop fuel st size).max_size = st.max_size := by
  induction fuel generalizing st with
  | zero => rfl
  | succ f ih =>
    unfold evictMemLoop
    split
    · rw [ih (mcEvictLRU st), mcEvictLRU_max_size]
    · rfl

theorem mcEvictLRU_length {V : Type} (st : MemoryCache V)
    (h : st.data.length ≠ 0) :
    (mcEvictLRU st).data.length + 1 = st.data.length := by
  have hne : st.data ≠ [] := by
    intro he
    rw [he] at h
    simp at h
  obtain ⟨p, hp⟩ := selectLRU_of_ne_nil hne
  obtain ⟨k, e⟩ := p
  have hmem := selectLRU_mem hp
  have hsome := lookup_isSome_of_mem hmem
  obtain ⟨e2, he2⟩ := Option.isSome_iff_exists.mp hsome
  have he2b : lookupEntry st.data k = some e2 := he2
  simp only [mcEvictLRU, hp, mcRemoveEntry, he2b]
  exact eraseKey_length_add_one he2b

theorem evictCountLoop_length_le {V : Type} (fuel : ℕ) (st : MemoryCache V)
    (hmax : 1 ≤ st.max_size) (hlen : st.data.length ≤ fuel + (st.max_size - 1)) :
    (evictCountLoop fuel st).data.length ≤ st.max_size - 1 := by
  induction fuel generalizing st with
  | zero =>
    unfold evictCountLoop
    simpa using hlen
  | succ f ih =>
    unfold evictCountLoop
    split
    case isTrue hcond =>
      have hms : (mcEvictLRU st).max_size = st.max_size := mcEvictLRU_max_size st
      have hlen2 : (mcEvictLRU st).data.length + 1 = st.data.length :=
        mcEvictLRU_length st hcond.2
      have hr := ih (mcEvictLRU st) (by omega) (by omega)
      omega
    case isFalse hcond =>
      rcases Decidable.not_and_iff_or_not.mp hcond with h1 | h2
      · omega
      · simp only [ne_eq, Decidable.not_not] at h2
        omega

theorem evictCountLoop_max_size {V : Type} (fuel : ℕ) (st : MemoryCache V) :
    (evictCountLoop fuel st).max_size = st.max_size := by
  induction fuel generalizing st with
  | zero => rfl
  | succ f ih =>
    unfold evictCountLoop
    split
    · rw [ih (mcEvictLRU st), mcEvictLRU_max_size]
    · rfl

theorem mcEnsureCapacity_max_size {V : Type} (st : MemoryCache V) (size : ℕ) :
    (mcEnsureCapacity st size).max_size = st.max_size := by
  unfold mcEnsureCapacity
  rw [evictCountLoop_max_size, evictMemLoop_max_size]

theorem mcEnsureCapacity_length_le {V : Type} (st : MemoryCache V) (size : ℕ)
    (hmax : 1 ≤ st.max_size) :
    (mcEnsureCapacity st size).data.length ≤ st.max_size - 1 := by
  have hms := evictMemLoop_max_size st.data.length st size
  have h := evictCountLoop_length_le
    (evictMemLoop st.data.length st size).data.length
    (evictMemLoop st.data.length st size) (by omega) (by omega)
  show (evictCountLoop (evictMemLoop st.data.length st size).data.length
    (evictMemLoop st.data.length st size)).data.length ≤ st.max_size - 1
  omega

theorem mcRemoveEntry_length_le {V : Type} (st : MemoryCache V) (k : String) :
    (mcRemoveEntry st k).data.length ≤ st.data.length := by
  unfold mcRemoveEntry
  cases lookupEntry st.data k with
  | none => exact le_refl _
  | some e => simpa using eraseKey_length_le st.data k

theorem keys_setEntry {V : Type} (l : List (String × MCEntry V)) (k : String)
    (e2 : MCEntry V) : (setEntry l k e2).map Prod.fst = l.map Prod.fst := by
  induction l with
  | nil => rfl
  | cons p rest ih =>
    obtain ⟨k2, e3⟩ := p
    by_cases hk : k2 = k
    · simp [setEntry, hk]
    · simp [setEntry, hk, ih]

theorem setEntry_eq_of_nodup {V : Type} {l : List (String × MCEntry V)}
    {k : String} {e2 : MCEntry V} {q : String × MCEntry V}
    (hnd : (l.map Prod.fst).Nodup) (hq : q ∈ setEntry l k e2) (hqk : q.1 = k) :
    q.2 = e2 ∨ lookupEntry l k = none := by
  induction l with
  | nil => simp [setEntry] at hq
  | cons p rest ih =>
    obtain ⟨k2, e3⟩ := p
    simp only [List.map_cons, List.nodup_cons] at hnd
    by_cases hk : k2 = k
    · simp only [setEntry, if_pos hk] at hq
      rcases List.mem_cons.mp hq with h1 | h2
      · left
        rw [h1]
      · exfalso
        apply hnd.1
        rw [hk, ← hqk]
        exact List.mem_map_of_mem Prod.fst h2
    · simp only [setEntry, if_neg hk] at hq
      rcases List.mem_cons.mp hq with h1 | h2
      · exfalso
        apply hk
        rw [← hqk, h1]
      · rcases ih hnd.2 h2 with h3 | h3
        · left; exact h3
        · right
          simp only [lookupEntry, if_neg hk]
          exact h3

/-- C8 (amended): (1) provided `max_size ≥ 1`, after every `set` the entry
count is at most `max_size`; (2) `_evict_lru` removes an entry whose
`last_accessed` is minimal among all stored entries; (3) a successful `get`
stamps the entry's `last_accessed` with the current time, so that whenever
some other entry was accessed strictly earlier, the touched entry is not the
eviction candidate. -/
theorem c8_lru_eviction {V : Type} :
    (∀ (st : MemoryCache V) k v ttl size now, 1 ≤ st.max_size →
      (mcSet st k v ttl size now).data.length ≤ st.max_size) ∧
    (∀ st : MemoryCache V, st.data ≠ [] →
      ∃ p, selectLRU st.data = some p ∧
        (∀ q ∈ st.data, p.2.last_accessed ≤ q.2.last_accessed) ∧
        mcEvictLRU st = mcRemoveEntry st p.1) ∧
    (∀ (st : MemoryCache V) k now e st2,
      (st.data.map Prod.fst).Nodup →
      mcGet st k now = (some e, st2) →
      e.last_accessed = now ∧
      ((∃ q ∈ st2.data, q.2.last_accessed < now) →
        ∀ p, selectLRU st2.data = some p → p.1 ≠ k)) := by
  refine ⟨?_, ?_, ?_⟩
  · intro st k v ttl size now hmax
    have h1 := mcEnsureCapacity_length_le st size hmax
    have h2 : (if (lookupEntry (mcEnsureCapacity st size).data k).isSome then
        mcRemoveEntry (mcEnsureCapacity st size) k
        else mcEnsureCapacity st size).data.length ≤ st.max_size - 1 := by
      split
      · exact le_trans (mcRemoveEntry_length_le _ k) h1
      · exact h1
    simp only [mcSet]
    simp only [List.length_append, List.length_cons, List.length_nil]
    omega
  · intro st hne
    obtain ⟨p, hp⟩ := selectLRU_of_ne_nil hne
    refine ⟨p, hp, selectLRU_min hp, ?_⟩
    obtain ⟨k, e⟩ := p
    unfold mcEvictLRU
    rw [hp]
  · intro st k now e st2 hnd hget
    cases he : lookupEntry st.data k with
    | none =>
      have hm : mcGet st k now = (none, st) := by
        simp only [mcGet, he]
      rw [hm] at hget
      simp at hget
    | some e0 =>
      by_cases hex : mcExpired e0 now
      · have hm : mcGet st k now = (none, mcRemoveEntry st k) := by
          simp only [mcGet, he, if_pos hex]
        rw [hm] at hget
        simp at hget
      · have hm : mcGet st k now =
            (some ⟨e0.value, e0.created_at, now, e0.access_count + 1, e0.ttl,
              e0.size_bytes⟩,
             ⟨st.max_size, st.max_memory_bytes,
              setEntry st.data k ⟨e0.value, e0.created_at, now,
                e0.access_count + 1, e0.ttl, e0.size_bytes⟩,
              st.current_memory⟩) := by
          simp only [mcGet, he, if_neg hex]
        rw [hm] at hget
        simp only [Prod.mk.injEq, Option.some.injEq] at hget
        obtain ⟨h1, h2⟩ := hget
        subst h1
        subst h2
        refine ⟨rfl, ?_⟩
        intro hex2 p hp hpk
        obtain ⟨q, hq, hqlt⟩ := hex2
        have hmin := selectLRU_min hp q hq
        have hmem := selectLRU_mem hp
        rcases setEntry_eq_of_nodup hnd hmem hpk with h3 | h3
        · have hpla : p.2.last_accessed = now := by rw [h3]
          omega
        · rw [he] at h3
          cases h3

/-- Empty cache with `max_size = 1` for the C8 witness. -/
def c8wSet : MemoryCache Unit := ⟨1, 1000, [], 0⟩

/-- Two-entry cache whose older entry is `"b"`, for the C8 witness. -/
def c8wEvict : MemoryCache Unit :=
  ⟨2, 1000, [("a", ⟨(), 0, 5, 0, none, 1⟩), ("b", ⟨(), 0, 3, 0, none, 1⟩)], 2⟩

/-- Two-entry cache whose older entry is `"a"`, for the C8 witness. -/
def c8wGet : MemoryCache Unit :=
  ⟨10, 1000, [("a", ⟨(), 0, 0, 0, none, 1⟩), ("b", ⟨(), 0, 1, 0, none, 1⟩)], 2⟩

/-- The entry of `c8wGet` under key `"b"` after a `get` at time `5`. -/
def c8wTouched : MCEntry Unit := ⟨(), 0, 5, 1, none, 1⟩

/-- Concrete instantiation of the three clauses of C8: a `set` on a
`max_size = 1` cache, the eviction choice on a two-entry cache (the older
entry `"b"` is selected), and a `get` that protects the touched key from
eviction. -/
theorem c8_lru_eviction_witness :
    (1 ≤ c8wSet.max_size ∧
      (mcSet c8wSet "k" () none 3 0).data.length ≤ c8wSet.max_size) ∧
    (c8wEvict.data ≠ [] ∧
      (∃ p, selectLRU c8wEvict.data = some p ∧
        (∀ q ∈ c8wEvict.data, p.2.last_accessed ≤ q.2.last_accessed) ∧
        mcEvictLRU c8wEvict = mcRemoveEntry c8wEvict p.1)) ∧
    ((c8wGet.data.map Prod.fst).Nodup ∧
      mcGet c8wGet "b" 5 = (some c8wTouched, (mcGet c8wGet "b" 5).2) ∧
      (c8wTouched.last_accessed = 5 ∧
        ((∃ q ∈ (mcGet c8wGet "b" 5).2.data, q.2.last_accessed < 5) →
          ∀ p, selectLRU (mcGet c8wGet "b" 5).2.data = some p → p.1 ≠ "b"))) :=
  ⟨⟨by decide, c8_lru_eviction.1 c8wSet "k" () none 3 0 (by decide)⟩,
   ⟨by decide, c8_lru_eviction.2.1 c8wEvict (by decide)⟩,
   ⟨by decide, by decide,
    c8_lru_eviction.2.2 c8wGet "b" 5 c8wTouched (mcGet c8wGet "b" 5).2
      (by decide) (by decide)⟩⟩

/-- C8 as stated is falsified at the edges of its quantifiers: with
`max_size = 0` (a constructible `MemoryCache`) a `set` leaves the entry
count above `max_size`, and after a successful `get` on a single-entry
cache the touched entry is still the least-recently-accessed eviction
candidate. -/
theorem c8_counterexample :
    (⟨0, 1000, [], 0⟩ : MemoryCache Unit).max_size = 0 ∧
    (mcSet (⟨0, 1000, [], 0⟩ : MemoryCache Unit) "k" () none 1 5).data.length = 1 ∧
    (selectLRU (mcGet (⟨10, 1000, [("k", ⟨(), 0, 0, 0, none, 1⟩)], 1⟩ :
      MemoryCache Unit) "k" 7).2.data).map Prod.fst = some "k" := by
  decide

/-! ## C9 — `JobQueue` priority ordering -/

theorem keyLe_refl (a : ℕ × ℚ) : keyLe a a := Or.inr ⟨rfl, le_refl _⟩

theorem keyLe_trans {a b c : ℕ × ℚ} (h1 : keyLe a b) (h2 : keyLe b c) :
    keyLe a c := by
  unfold keyLe at *
  rcases h1 with h1 | ⟨h1, h1b⟩ <;> rcases h2 with h2 | ⟨h2, h2b⟩
  · exact Or.inl (lt_trans h1 h2)
  · exact Or.inl (h2 ▸ h1)
  · exact Or.inl (h1 ▸ h2)
  · exact Or.inr ⟨h1.trans h2, le_trans h1b h2b⟩

theorem keyLe_of_not_keyLe {a b : ℕ × ℚ} (h : ¬ keyLe a b) : keyLe b a := by
  unfold keyLe at h ⊢
  rcases lt_trichotomy a.1 b.1 with h1 | h1 | h1
  · exact absurd (Or.inl h1) h
  · push_neg at h
    right
    refine ⟨h1.symm, ?_⟩
    have h2 := h.2 h1
    linarith
  · exact Or.inl h1

theorem selectMinJob_eq_none {q : List QJob} (h : selectMinJob q = none) :
    q = [] := by
  cases q with
  | nil => rfl
  | cons j rest =>
    exfalso
    unfold selectMinJob at h
    split at h
    · exact Option.noConfusion h
    · split at h <;> exact Option.noConfusion h

theorem selectMinJob_perm {q : List QJob} {m : QJob} {rest : List QJob}
    (h : selectMinJob q = some (m, rest)) : q.Perm (m :: rest) := by
  induction q generalizing m rest with
  | nil => simp [selectMinJob] at h
  | cons j tail ih =>
    cases hs : selectMinJob tail with
    | none =>
      simp only [selectMinJob, hs] at h
      cases h
      rw [selectMinJob_eq_none hs]
    | some p =>
      obtain ⟨m2, rest2⟩ := p
      simp only [selectMinJob, hs] at h
      split at h
      · cases h
        exact List.Perm.refl _
      · cases h
        exact ((ih hs).cons j).trans (List.Perm.swap _ j _)

theorem selectMinJob_min {q : List QJob} {m : QJob} {rest : List QJob}
    (h : selectMinJob q = some (m, rest)) :
    ∀ x ∈ q, keyLe (jobKey m) (jobKey x) := by
  induction q generalizing m rest with
  | nil => simp [selectMinJob] at h
  | cons j tail ih =>
    cases hs : selectMinJob tail with
    | none =>
      simp only [selectMinJob, hs] at h
      cases h
      rw [selectMinJob_eq_none hs]
      intro x hx
      simp at hx
      subst hx
      exact keyLe_refl _
    | some p =>
      obtain ⟨m2, rest2⟩ := p
      simp only [selectMinJob, hs] at h
      split at h
      · rename_i hle
        cases h
        intro x hx
        rcases List.mem_cons.mp hx with h1 | h2
        · subst h1; exact keyLe_refl _
        · exact keyLe_trans hle (ih hs x h2)
      · rename_i hle
        cases h
        intro x hx
        rcases List.mem_cons.mp hx with h1 | h2
        · subst h1; exact keyLe_of_not_keyLe hle
        · exact ih hs x h2

theorem drainFuel_perm_sorted (fuel : ℕ) :
    ∀ q : List QJob, q.length ≤ fuel →
      (drainFuel fuel q).Perm q ∧
      (drainFuel fuel q).Sorted (fun a b => keyLe (jobKey a) (jobKey b)) := by
  induction fuel with
  | zero =>
    intro q hq
    have hq0 : q = [] := List.eq_nil_of_length_eq_zero (Nat.le_zero.mp hq)
    subst hq0
    simp [drainFuel]
  | succ f ih =>
    intro q hq
    unfold drainFuel
    cases hs : selectMinJob q with
    | none =>
      rw [selectMinJob_eq_none hs]
      simp
    | some p =>
      obtain ⟨m, q2⟩ := p
      have hperm := selectMinJob_perm hs
      have hmin := selectMinJob_min hs
      have hlen : q2.length + 1 = q.length := by
        have hl := hperm.length_eq
        simp at hl
        omega
      obtain ⟨ihp, ihs⟩ := ih q2 (by omega)
      constructor
      · exact (ihp.cons m).trans hperm.symm
      · rw [List.sorted_cons]
        refine ⟨?_, ihs⟩
        intro b hb
        have hbq : b ∈ q :=
          hperm.symm.subset (List.mem_cons_of_mem m (ihp.subset hb))
        exact hmin b hbq

theorem JobPriority.val_bounds (p : JobPriority) : 1 ≤ p.val ∧ p.val ≤ 4 := by
  cases p <;> simp [JobPriority.val]

/-- The claim's dequeue order: descending priority, then ascending creation
time. -/
def dequeueOrder (a b : QJob) : Prop :=
  b.priority.val < a.priority.val ∨
    (a.priority.val = b.priority.val ∧ a.created_at ≤ b.created_at)

theorem keyLe_jobKey_iff (a b : QJob) :
    keyLe (jobKey a) (jobKey b) ↔ dequeueOrder a b := by
  have ha := JobPriority.val_bounds a.priority
  have hb := JobPriority.val_bounds b.priority
  simp only [keyLe, jobKey, dequeueOrder]
  constructor
  · rintro (h | ⟨h1, h2⟩)
    · left; omega
    · right; exact ⟨by omega, h2⟩
  · rintro (h | ⟨h1, h2⟩)
    · left; omega
    · right; exact ⟨by omega, h2⟩

/-- Job A of the spec's batch-ordering example: low priority, `t = 0`. -/
def jobA : QJob := ⟨"A", .low, 0⟩

/-- Job B of the spec's batch-ordering example: high priority, `t = 1`. -/
def jobB : QJob := ⟨"B", .high, 1⟩

/-- Job C of the spec's batch-ordering example: high priority, `t = 2`. -/
def jobC : QJob := ⟨"C", .high, 2⟩

/-- C9: draining the `JobQueue` returns every enqueued job, in descending
priority and, among jobs of equal priority, ascending creation time; in
particular jobs A(low, t=0), B(high, t=1), C(high, t=2) dequeue as B, C, A.
-/
theorem c9_job_queue_order :
    (∀ q : List QJob, (drain q).Perm q ∧ (drain q).Sorted dequeueOrder) ∧
    drain [jobA, jobB, jobC] = [jobB, jobC, jobA] := by
  constructor
  · intro q
    obtain ⟨hp, hs⟩ := drainFuel_perm_sorted q.length q (le_refl _)
    exact ⟨hp, hs.imp fun h => (keyLe_jobKey_iff _ _).mp h⟩
  · decide

/-! ## C5 — `LLMClient.call`: one repair, then `({}, False)` -/

/-- C5: on a cache miss whose first completion fails to parse, `call` issues
exactly one repair request against the same model; if the repair response
also fails to parse (or the repair request itself raises), `call` returns
the empty result with `success = false`.  The embedding is a total function
(the outer `except Exception` swallows everything), so nothing escapes the
`call` boundary on this path. -/
theorem c5_repair_once_then_fail {J : Type} (parse : String → Option J)
    (env : CallEnv) (cache : List (CallKey × J)) (model system user : String)
    (temperature : ℚ) (seed : Option ℤ) (t : String)
    (hmiss : cacheLookup cache ⟨model, system, user, temperature, seed⟩ = none)
    (hfirst : env.firstResp = some t)
    (hparse : parse (cleanResponse t) = none) :
    (llmCall parse env cache model system user temperature seed).2.1 =
      [⟨model, false⟩, ⟨model, true⟩] ∧
    (∀ rt, env.repairResp = some rt → parse (cleanResponse rt) = none →
      (llmCall parse env cache model system user temperature seed).1 =
        (none, false)) ∧
    (env.repairResp = none →
      (llmCall parse env cache model system user temperature seed).1 =
        (none, false)) := by
  simp only [llmCall, hmiss, hfirst, hparse]
  cases hr : env.repairResp with
  | none =>
    dsimp only
    simp
  | some rt =>
    dsimp only
    cases hp : parse (cleanResponse rt) with
    | none =>
      dsimp only
      simp
    | some j =>
      dsimp only
      refine ⟨rfl, ?_, ?_⟩
      · intro rt2 h1 h2
        injection h1 with h1
        subst h1
        rw [hp] at h2
        cases h2
      · intro h1
        cases h1

/-- Environment for the C5 witness: both completions return text that no
parser accepts. -/
def c5wEnv : CallEnv := ⟨some "nonsense", some "more nonsense"⟩

/-- The always-failing parser of the C5 witness. -/
def c5wParse : String → Option Unit := fun _ => none

/-- Concrete instantiation of C5: empty cache, both responses unparseable —
one repair request to the same model, then `({}, False)`. -/
theorem c5_repair_once_then_fail_witness :
    cacheLookup ([] : List (CallKey × Unit)) ⟨"m", "sys", "u", 0, some 42⟩ =
      none ∧
    c5wEnv.firstResp = some "nonsense" ∧
    c5wParse (cleanResponse "nonsense") = none ∧
    ((llmCall c5wParse c5wEnv [] "m" "sys" "u" 0 (some 42)).2.1 =
      [⟨"m", false⟩, ⟨"m", true⟩] ∧
    (∀ rt, c5wEnv.repairResp = some rt → c5wParse (cleanResponse rt) = none →
      (llmCall c5wParse c5wEnv [] "m" "sys" "u" 0 (some 42)).1 =
        (none, false)) ∧
    (c5wEnv.repairResp = none →
      (llmCall c5wParse c5wEnv [] "m" "sys" "u" 0 (some 42)).1 =
        (none, false))) :=
  ⟨rfl, rfl, rfl,
   c5_repair_once_then_fail c5wParse c5wEnv [] "m" "sys" "u" 0 (some 42)
     "nonsense" rfl rfl rfl⟩

/-! ## C7 — `LLMClient.call`: cache idempotence -/

/-- C7: if a `call` succeeded, an identical later call (any network
environment) is answered from the cache: the identical result with
`success = true`, an empty request trace (zero external calls, hence no
repair and no escalation logic), and an unchanged cache. -/
theorem c7_cache_idempotent {J : Type} (parse : String → Option J)
    (env env2 : CallEnv) (cache : List (CallKey × J))
    (model system user : String) (temperature : ℚ) (seed : Option ℤ)
    (j : J) (trace : List ApiCall) (cache2 : List (CallKey × J))
    (h : llmCall parse env cache model system user temperature seed =
      ((some j, true), trace, cache2)) :
    llmCall parse env2 cache2 model system user temperature seed =
      ((some j, true), [], cache2) := by
  have hkey : cacheLookup cache2 ⟨model, system, user, temperature, seed⟩ =
      some j := by
    simp only [llmCall] at h
    cases hc : cacheLookup cache ⟨model, system, user, temperature, seed⟩ with
    | some j0 =>
      simp only [hc] at h
      simp only [Prod.mk.injEq, Option.some.injEq] at h
      obtain ⟨⟨h1, _⟩, _, h3⟩ := h
      subst h1
      rw [← h3]
      exact hc
    | none =>
      simp only [hc] at h
      cases hf : env.firstResp with
      | none => simp only [hf] at h; simp at h
      | some raw =>
        simp only [hf] at h
        cases hp : parse (cleanResponse raw) with
        | some j1 =>
          simp only [hp] at h
          simp only [Prod.mk.injEq, Option.some.injEq] at h
          obtain ⟨⟨h1, _⟩, _, h3⟩ := h
          subst h1
          rw [← h3]
          simp [cacheLookup]
        | none =>
          simp only [hp] at h
          cases hr : env.repairResp with
          | none => simp only [hr] at h; simp at h
          | some rraw =>
            simp only [hr] at h
            cases hp2 : parse (cleanResponse rraw) with
            | some j1 =>
              simp only [hp2] at h
              simp only [Prod.mk.injEq, Option.some.injEq] at h
              obtain ⟨⟨h1, _⟩, _, h3⟩ := h
              subst h1
              rw [← h3]
              simp [cacheLookup]
            | none => simp only [hp2] at h; simp at h
  simp only [llmCall, hkey]

/-- Parser of the C7 witness: accepts exactly the text `"ok"`. -/
def c7wParse : String → Option ℕ := fun s => if s = "ok" then some 0 else none

/-- Environment of the C7 witness's first call. -/
def c7wEnv : CallEnv := ⟨some "ok", none⟩

/-- Cache key of the C7 witness. -/
def c7wKey : CallKey := ⟨"m", "sys", "u", 0, some 42⟩

/-- Concrete instantiation of C7: a successful first call (one request),
then an identical call answered from the cache with zero requests even in
an environment with no responses at all. -/
theorem c7_cache_idempotent_witness :
    llmCall c7wParse c7wEnv [] "m" "sys" "u" 0 (some 42) =
      ((some 0, true), [⟨"m", false⟩], [(c7wKey, 0)]) ∧
    llmCall c7wParse ⟨none, none⟩ [(c7wKey, 0)] "m" "sys" "u" 0 (some 42) =
      ((some 0, true), [], [(c7wKey, 0)]) :=
  ⟨by decide,
   c7_cache_idempotent c7wParse c7wEnv ⟨none, none⟩ [] "m" "sys" "u" 0
     (some 42) 0 [⟨"m", false⟩] [(c7wKey, 0)] (by decide)⟩

/-! ## C6 — `LLMClient._needs_escalation` -/

theorem pyAbs_eq_abs (q : ℚ) : pyAbs q = |q| := by
  unfold pyAbs
  by_cases h : q < 0
  · rw [if_pos h, abs_of_neg h]
  · rw [if_neg h, abs_of_nonneg (le_of_not_lt h)]

theorem truthyQ_nfGet_iff {f : NField} {q : ℚ} :
    truthyQ (nfGet f none) = some q ↔ (f = some (some q) ∧ q ≠ 0) := by
  constructor
  · intro h
    cases f with
    | none => simp [nfGet, truthyQ] at h
    | some v =>
      cases v with
      | none => simp [nfGet, truthyQ] at h
      | some x =>
        simp only [nfGet, truthyQ] at h
        by_cases hx : x = 0
        · rw [if_pos hx] at h; cases h
        · rw [if_neg hx] at h
          cases h
          exact ⟨rfl, hx⟩
  · rintro ⟨rfl, hq⟩
    simp [nfGet, truthyQ, hq]

theorem confBelow_iff {f : Option ConfF} :
    confBelow f = true ↔ ∃ c, f = some c ∧ c.confidence.getD 0 < 7 / 10 := by
  cases f with
  | none => simp [confBelow]
  | some c => simp [confBelow]

theorem lineMismatch_iff {l : ExLine} :
    lineMismatch l = true ↔
      ∃ q p t : ℚ, l.qty = some (some q) ∧ q ≠ 0 ∧
        l.unit_price = some (some p) ∧ p ≠ 0 ∧
        l.line_total = some (some t) ∧ t ≠ 0 ∧
        |q * p - t| > 1 / 100 := by
  constructor
  · intro hm
    unfold lineMismatch at hm
    split at hm
    · rename_i q p t hq hp ht
      rw [decide_eq_true_iff, pyAbs_eq_abs] at hm
      obtain ⟨hq1, hq2⟩ := truthyQ_nfGet_iff.mp hq
      obtain ⟨hp1, hp2⟩ := truthyQ_nfGet_iff.mp hp
      obtain ⟨ht1, ht2⟩ := truthyQ_nfGet_iff.mp ht
      exact ⟨q, p, t, hq1, hq2, hp1, hp2, ht1, ht2, hm⟩
    · cases hm
  · rintro ⟨q, p, t, hq1, hq2, hp1, hp2, ht1, ht2, habs⟩
    unfold lineMismatch
    rw [truthyQ_nfGet_iff.mpr ⟨hq1, hq2⟩, truthyQ_nfGet_iff.mpr ⟨hp1, hp2⟩,
      truthyQ_nfGet_iff.mpr ⟨ht1, ht2⟩]
    rw [decide_eq_true_iff, pyAbs_eq_abs]
    exact habs

/-- C6 (amended): `_needs_escalation` returns `True` iff either (a) a
required field — `vendor`, plus `invoice_no` when that key is present,
otherwise `service_category` — is present with an effective confidence
(missing confidence counts as 0) below 0.7, or (b) some line has `qty`,
`unit_price` and `line_total` all present, non-null *and non-zero* (Python
truthiness) with `|qty × unit_price − line_total|` above $0.01. -/
theorem c6_needs_escalation_iff (r : ExResult) :
    needsEscalation r = true ↔
      ((∃ f ∈ requiredFields r, ∃ c, f = some c ∧
          c.confidence.getD 0 < 7 / 10) ∨
       (∃ l ∈ r.lines.getD [], ∃ q p t : ℚ,
          l.qty = some (some q) ∧ q ≠ 0 ∧
          l.unit_price = some (some p) ∧ p ≠ 0 ∧
          l.line_total = some (some t) ∧ t ≠ 0 ∧
          |q * p - t| > 1 / 100)) := by
  have h3 : needsEscalation r =
      ((requiredFields r).any confBelow || (r.lines.getD []).any lineMismatch) := by
    unfold needsEscalation
    by_cases ha : (requiredFields r).any confBelow = true
    · simp [ha]
    · by_cases hb : (r.lines.getD []).any lineMismatch = true <;>
        simp [ha, hb]
  rw [h3, Bool.or_eq_true, List.any_eq_true, List.any_eq_true]
  constructor
  · rintro (⟨f, hf, hc⟩ | ⟨l, hl, hm⟩)
    · exact Or.inl ⟨f, hf, confBelow_iff.mp hc⟩
    · exact Or.inr ⟨l, hl, lineMismatch_iff.mp hm⟩
  · rintro (⟨f, hf, hc⟩ | ⟨l, hl, hm⟩)
    · exact Or.inl ⟨f, hf, confBelow_iff.mpr hc⟩
    · exact Or.inr ⟨l, hl, lineMismatch_iff.mpr hm⟩

/-- Extraction result on which the code and claim C6 disagree: confident
required fields, and a line with `qty = 0`, `unit_price = 5`,
`line_total = 5`. -/
def c6cRes : ExResult :=
  { vendor := some ⟨some (9 / 10)⟩
    invoice_no := none
    service_category := some ⟨some (9 / 10)⟩
    lines := some [⟨some (some 0), some (some 5), some (some 5)⟩] }

/-- Counterexample to C6 as stated: on `c6cRes` the claim's condition holds
(all three line fields are present and `|0 × 5 − 5| = 5 > $0.01`), yet
`_needs_escalation` returns `False`, because Python truthiness skips the
arithmetic check when `qty == 0`. -/
theorem c6_counterexample :
    claimNeedsEscalation c6cRes = true ∧ needsEscalation c6cRes = false := by
  decide

/-! ## C2 — the overpay-per-unit rule -/

/-- C2: for a matched invoice line whose `unit_price` and matched contract
`price` are numbers `p` and `q`, the overpay check emits the
`overpay_per_unit` flag exactly when `p > q × 1.01`; the flag's severity is
ERROR and its evidence delta is `p − q`. -/
theorem c2_overpay_rule (c : Contract) (i : Invoice) (m : RMatch)
    (line : InvoiceLine) (t : ContractTerm) (p q : ℚ)
    (hl : i.lines.get? m.invoice_line_index = some line)
    (ht : c.terms.get? m.contract_term_index = some t)
    (hp : line.unit_price = some (some p))
    (hq : t.price = some (some q)) :
    (checkOverpayPerUnit c i [m] =
      .ok (if p > q * (101 / 100) then [overpayFlag p q] else [])) ∧
    (∀ ms2, checkOverpayPerUnit c i (m :: ms2) =
      match checkOverpayPerUnit c i ms2 with
      | .error e => .error e
      | .ok rest =>
        .ok ((if p > q * (101 / 100) then [overpayFlag p q] else []) ++ rest)) ∧
    (overpayFlag p q).severity = .error ∧
    (overpayFlag p q).evidence.delta = some (p - q) := by
  refine ⟨?_, ?_, rfl, rfl⟩
  · unfold checkOverpayPerUnit
    simp only [hl, ht, hp, hq, nfGet, pyFloat]
    unfold checkOverpayPerUnit
    by_cases hcond : p > q * (101 / 100)
    · simp [hcond]
    · simp [hcond]
  · intro ms2
    conv_lhs => rw [checkOverpayPerUnit]
    simp only [hl, ht, hp, hq, nfGet, pyFloat]
    cases hrest : checkOverpayPerUnit c i ms2 with
    | error e => rfl
    | ok rest =>
      dsimp only
      by_cases hcond : p > q * (101 / 100)
      · simp [hcond]
      · simp [hcond]

/-- Contract of the C2 witness: one term `SRV-001` priced $100.00. -/
def c2wContract : Contract :=
  { vendor := some (some "Acme Inc")
    terms := [{ item_code := some (some "SRV-001"), price := some (some 100) }] }

/-- Invoice line priced $101.00 (inside the 1% tolerance). -/
def c2wLine101 : InvoiceLine :=
  { item_code := some (some "SRV-001"), unit_price := some (some 101) }

/-- Invoice line priced $101.01 (just above the 1% tolerance). -/
def c2wLine10101 : InvoiceLine :=
  { item_code := some (some "SRV-001"),
    unit_price := some (some (10101 / 100)) }

/-- Invoice of the C2 witness with the $101.00 line. -/
def c2wInv101 : Invoice :=
  { vendor := some (some "Acme Inc"), lines := [c2wLine101] }

/-- Invoice of the C2 witness with the $101.01 line. -/
def c2wInv10101 : Invoice :=
  { vendor := some (some "Acme Inc"), lines := [c2wLine10101] }

/-- The (code-method) match of the C2 witness. -/
def c2wMatch : RMatch := ⟨0, 0, .code, 1⟩

/-- Concrete instantiation of C2 at the claim's boundary: contract price
$100.00 — an invoice price of $101.00 yields no flag, $101.01 yields the
ERROR flag with delta exactly $1.01. -/
theorem c2_overpay_rule_witness :
    checkOverpayPerUnit c2wContract c2wInv101 [c2wMatch] = .ok [] ∧
    checkOverpayPerUnit c2wContract c2wInv10101 [c2wMatch] =
      .ok [overpayFlag (10101 / 100) 100] ∧
    (overpayFlag (10101 / 100) 100).severity = .error ∧
    (overpayFlag (10101 / 100) 100).evidence.delta = some (101 / 100) := by
  refine ⟨?_, ?_, rfl, ?_⟩
  · have h := (c2_overpay_rule c2wContract c2wInv101 c2wMatch c2wLine101 _
      101 100 rfl rfl rfl rfl).1
    rw [h, if_neg (by norm_num)]
  · have h := (c2_overpay_rule c2wContract c2wInv10101 c2wMatch c2wLine10101 _
      (10101 / 100) 100 rfl rfl rfl rfl).1
    rw [h, if_pos (by norm_num)]
  · have : (10101 : ℚ) / 100 - 100 = 101 / 100 := by norm_num
    simp [overpayFlag, this]

/-! ## C1 — at most one `Match` per contract term -/

theorem descUpdate_inv {sim : String → String → ℚ} {line : InvoiceLine}
    {t : ContractTerm} {idx : ℕ} {best : BestCand} {used : List ℕ}
    (hbest : ∀ k meth, best.1 = some (k, meth) → k ∉ used)
    (hidx : idx ∉ used) :
    ∀ k meth, (descUpdate sim line t idx best).1 = some (k, meth) →
      k ∉ used := by
  intro k meth hk
  unfold descUpdate at hk
  split at hk
  · dsimp only at hk
    split at hk
    · cases hk
      exact hidx
    · exact hbest k meth hk
  · exact hbest k meth hk

theorem toleranceUpdate_inv {line : InvoiceLine} {t : ContractTerm} {idx : ℕ}
    {best : BestCand} {used : List ℕ}
    (hbest : ∀ k meth, best.1 = some (k, meth) → k ∉ used)
    (hidx : idx ∉ used) :
    ∀ k meth, (toleranceUpdate line t idx best).1 = some (k, meth) →
      k ∉ used := by
  intro k meth hk
  unfold toleranceUpdate at hk
  split at hk
  · dsimp only at hk
    split at hk
    · cases hk
      exact hidx
    · exact hbest k meth hk
  · exact hbest k meth hk

theorem innerScan_inv (sim : String → String → ℚ) (used : List ℕ)
    (line : InvoiceLine) :
    ∀ (ts : List (ℕ × ContractTerm)) (best res : BestCand),
      innerScan sim used line ts best = .ok res →
      (∀ k meth, best.1 = some (k, meth) → k ∉ used) →
      ∀ k meth, res.1 = some (k, meth) → k ∉ used := by
  intro ts
  induction ts with
  | nil =>
    intro best res h hbest
    unfold innerScan at h
    cases h
    exact hbest
  | cons p rest ih =>
    obtain ⟨idx, t⟩ := p
    intro best res h hbest
    unfold innerScan at h
    by_cases hu : used.contains idx = true
    · rw [if_pos hu] at h
      exact ih best res h hbest
    · rw [if_neg hu] at h
      have hidx : idx ∉ used := by simpa using hu
      cases hic : sStripGet line.item_code with
      | error e =>
        rw [hic] at h
        cases h
      | ok invCode =>
        rw [hic] at h
        dsimp only at h
        cases hcc : sStripGet t.item_code with
        | error e =>
          rw [hcc] at h
          cases h
        | ok contCode =>
          rw [hcc] at h
          dsimp only at h
          split at h
          · cases h
            intro k meth hk
            cases hk
            exact hidx
          · exact ih _ res h
              (toleranceUpdate_inv (descUpdate_inv hbest hidx) hidx)

theorem matchLinesGo_spec (sim : String → String → ℚ)
    (terms : List (ℕ × ContractTerm)) :
    ∀ (lines : List (ℕ × InvoiceLine)) (used : List ℕ) (ms : List RMatch),
      matchLinesGo sim terms lines used = .ok ms →
      (∀ m ∈ ms, m.contract_term_index ∉ used) ∧
      ms.Pairwise
        (fun a b => a.contract_term_index ≠ b.contract_term_index) := by
  intro lines
  induction lines with
  | nil =>
    intro used ms h
    unfold matchLinesGo at h
    cases h
    simp
  | cons p rest ih =>
    obtain ⟨li, line⟩ := p
    intro used ms h
    unfold matchLinesGo at h
    cases hscan : innerScan sim used line terms (none, 0) with
    | error e =>
      rw [hscan] at h
      cases h
    | ok best =>
      rw [hscan] at h
      obtain ⟨bm, conf⟩ := best
      cases bm with
      | none =>
        dsimp only at h
        exact ih used ms h
      | some km =>
        obtain ⟨k, meth⟩ := km
        dsimp only at h
        by_cases hconf : conf ≥ 3 / 5
        · rw [if_pos hconf] at h
          cases hrest : matchLinesGo sim terms rest (k :: used) with
          | error e =>
            rw [hrest] at h
            cases h
          | ok ms1 =>
            rw [hrest] at h
            dsimp only at h
            cases h
            have hknu : k ∉ used :=
              innerScan_inv sim used line terms (none, 0) _ hscan
                (by intro k2 m2 hh; cases hh) k meth rfl
            obtain ⟨hall, hpw⟩ := ih (k :: used) ms1 hrest
            constructor
            · intro m hm
              rcases List.mem_cons.mp hm with h1 | h2
              · rw [h1]
                exact hknu
              · intro hmem
                exact hall m h2 (List.mem_cons_of_mem _ hmem)
            · rw [List.pairwise_cons]
              refine ⟨?_, hpw⟩
              intro m hm heq
              apply hall m hm
              rw [← heq]
              exact List.mem_cons_self _ _
        · rw [if_neg hconf] at h
          exact ih used ms h

/-- C1: `_match_lines` never pairs two matches with the same
`contract_term_index` — each contract term is consumed by at most one
invoice line per reconciliation call.  Holds for every description
similarity function. -/
theorem c1_match_indices_unique (sim : String → String → ℚ) (c : Contract)
    (i : Invoice) (ms : List RMatch) (h : matchLines sim c i = .ok ms) :
    ms.Pairwise (fun a b => a.contract_term_index ≠ b.contract_term_index) :=
  (matchLinesGo_spec sim c.terms.enum i.lines.enum [] ms h).2

/-- The similarity function used by concrete witnesses (its value is
irrelevant on code-matched lines). -/
def simZero : String → String → ℚ := fun _ _ => 0

/-- Contract of the C1 witness: two terms with item codes `SRV-001` and
`SRV-002`. -/
def c1wContract : Contract :=
  { vendor := some (some "Acme Inc")
    terms := [{ item_code := some (some "SRV-001"), price := some (some 100) },
              { item_code := some (some "SRV-002"), price := some (some 50) }] }

/-- Invoice of the C1 witness: two lines hitting both codes. -/
def c1wInvoice : Invoice :=
  { vendor := some (some "Acme Inc")
    lines := [{ item_code := some (some "SRV-001") },
              { item_code := some (some "SRV-002") }] }

/-- Concrete instantiation of C1: both lines match distinct contract terms
and the produced matches carry pairwise-distinct `contract_term_index`. -/
theorem c1_match_indices_unique_witness :
    matchLines simZero c1wContract c1wInvoice =
      .ok [⟨0, 0, .code, 1⟩, ⟨1, 1, .code, 1⟩] ∧
    List.Pairwise (fun a b : RMatch =>
        a.contract_term_index ≠ b.contract_term_index)
      [⟨0, 0, .code, 1⟩, ⟨1, 1, .code, 1⟩] :=
  ⟨by decide,
   c1_match_indices_unique simZero c1wContract c1wInvoice
     [⟨0, 0, .code, 1⟩, ⟨1, 1, .code, 1⟩] (by decide)⟩

/-! ## C3 — duplicate-invoice detection -/

theorem checkOverpayPerUnit_types {c : Contract} {i : Invoice}
    {ms : List RMatch} {fs : List Flag}
    (h : checkOverpayPerUnit c i ms = .ok fs) :
    ∀ f ∈ fs, f.type = .overpay_per_unit := by
  induction ms generalizing fs with
  | nil =>
    unfold checkOverpayPerUnit at h
    cases h
    simp
  | cons m rest ih =>
    unfold checkOverpayPerUnit at h
    split at h
    · rename_i line t hl2 ht2
      cases hip : pyFloat (nfGet line.unit_price (some 0)) with
      | error e => rw [hip] at h; cases h
      | ok ip =>
        rw [hip] at h
        dsimp only at h
        cases hcp : pyFloat (nfGet t.price (some 0)) with
        | error e => rw [hcp] at h; cases h
        | ok cp =>
          rw [hcp] at h
          dsimp only at h
          cases hrest : checkOverpayPerUnit c i rest with
          | error e => rw [hrest] at h; cases h
          | ok rfs =>
            rw [hrest] at h
            dsimp only at h
            split at h
            · cases h
              intro f hf
              rcases List.mem_cons.mp hf with h1 | h2
              · rw [h1]; rfl
              · exact ih hrest f h2
            · cases h
              exact ih hrest
    · exact ih h

theorem checkQuantityVariance_types {c : Contract} {i : Invoice}
    {ms : List RMatch} {fs : List Flag}
    (h : checkQuantityVariance c i ms = .ok fs) :
    ∀ f ∈ fs, f.type = .quantity_variance := by
  induction ms generalizing fs with
  | nil =>
    unfold checkQuantityVariance at h
    cases h
    simp
  | cons m rest ih =>
    unfold checkQuantityVariance at h
    split at h
    · rename_i line t hl2 ht2
      cases hiq : pyFloat (nfGet line.qty (some 0)) with
      | error e => rw [hiq] at h; cases h
      | ok iq =>
        rw [hiq] at h
        dsimp only at h
        cases hrest : checkQuantityVariance c i rest with
        | error e => rw [hrest] at h; cases h
        | ok rfs =>
          rw [hrest] at h
          dsimp only at h
          cases hmq : truthyQ (nfGet t.max_qty none) with
          | none =>
            rw [hmq] at h
            cases h
            exact ih hrest
          | some mq =>
            rw [hmq] at h
            dsimp only at h
            split at h
            · cases h
              intro f hf
              rcases List.mem_cons.mp hf with h1 | h2
              · rw [h1]; rfl
              · exact ih hrest f h2
            · cases h
              exact ih hrest
    · exact ih h

theorem checkOutOfScope_types (i : Invoice) (ms : List RMatch) :
    ∀ f ∈ checkOutOfScope i ms, f.type = .out_of_scope := by
  intro f hf
  simp only [checkOutOfScope, List.mem_map] at hf
  obtain ⟨p, _, rfl⟩ := hf
  rfl

theorem checkCapExceeded_types (c : Contract) (i : Invoice) :
    ∀ f ∈ checkCapExceeded c i, f.type = .cap_exceeded := by
  intro f hf
  unfold checkCapExceeded at hf
  split at hf
  · simp at hf
  · dsimp only at hf
    split at hf
    · rcases List.mem_singleton.mp hf with rfl
      rfl
    · simp at hf

theorem checkServiceDates_types (c : Contract) (i : Invoice)
    (ms : List RMatch) : ∀ f ∈ checkServiceDates c i ms,
      f.type = .date_variance := by
  induction ms with
  | nil => simp [checkServiceDates]
  | cons m rest ih =>
    intro f hf
    unfold checkServiceDates at hf
    split at hf
    · split at hf
      · split at hf
        · split at hf
          · rcases List.mem_cons.mp hf with h1 | h2
            · rw [h1]; rfl
            · exact ih f h2
          · exact ih f hf
        · exact ih f hf
      · exact ih f hf
    · exact ih f hf

theorem checkDuplicateInvoice_spec (st : EngineState) (i : Invoice) :
    checkDuplicateInvoice st i =
      (if st.processed_invoices.contains (invoiceKey i) then [dupFlag i]
        else [],
       ⟨st.vendor_aliases, st.processed_invoices ++ [invoiceKey i]⟩) := rfl

/-- C3 (amended): when a reconciliation passes vendor matching and the
contract-activity check (and thus reaches rule validation) and returns
normally, the invoice's composite key `vendor_invoiceNo_total` is appended
to the engine's `processed_invoices` regardless of the outcome; the
`duplicate_invoice` ERROR flag is raised exactly when the key had been seen
in this engine instance's lifetime. -/
theorem c3_duplicate_detection (sim : String → String → ℚ) (now : PyDate)
    (st : EngineState) (c : Contract) (i : Invoice)
    (r : ReconciliationResult) (st2 : EngineState)
    (hv : matchVendor st c i = .ok true)
    (ha : isContractActive c i = true)
    (hr : reconcile sim now st c i = .ok (r, st2)) :
    st2.processed_invoices = st.processed_invoices ++ [invoiceKey i] ∧
    (invoiceKey i ∈ st.processed_invoices → dupFlag i ∈ r.flags) ∧
    (invoiceKey i ∉ st.processed_invoices →
      ∀ f ∈ r.flags, f.type ≠ .duplicate_invoice) := by
  unfold reconcile at hr
  rw [hv] at hr
  dsimp only at hr
  rw [if_neg (by simp)] at hr
  rw [ha] at hr
  rw [if_neg (by simp)] at hr
  cases hms : matchLines sim c i with
  | error e => rw [hms] at hr; cases hr
  | ok ms =>
    rw [hms] at hr
    dsimp only at hr
    cases hvr : validateRules st c i ms with
    | error e => rw [hvr] at hr; cases hr
    | ok p =>
      rw [hvr] at hr
      dsimp only at hr
      obtain ⟨fl, st3⟩ := p
      cases hr
      unfold validateRules at hvr
      cases ho : checkOverpayPerUnit c i ms with
      | error e => rw [ho] at hvr; cases hvr
      | ok f1 =>
        rw [ho] at hvr
        dsimp only at hvr
        cases hq : checkQuantityVariance c i ms with
        | error e => rw [hq] at hvr; cases hvr
        | ok f2 =>
          rw [hq] at hvr
          dsimp only at hvr
          cases hvr
          refine ⟨?_, ?_, ?_⟩
          · rw [checkDuplicateInvoice_spec]
          · intro hmem
            have hcontains :
                st.processed_invoices.contains (invoiceKey i) = true := by
              simpa using hmem
            simp only [checkDuplicateInvoice_spec, hcontains]
            simp [List.mem_append]
          · intro hmem f hf htype
            have hcontains :
                st.processed_invoices.contains (invoiceKey i) = false := by
              simpa using hmem
            simp only [checkDuplicateInvoice_spec, hcontains,
              Bool.false_eq_true, if_false, List.append_nil,
              List.mem_append] at hf
            rcases hf with ((((hf | hf) | hf) | hf) | hf) | hf
            · have ht2 := checkOverpayPerUnit_types ho f hf
              rw [htype] at ht2
              cases ht2
            · have ht2 := checkQuantityVariance_types hq f hf
              rw [htype] at ht2
              cases ht2
            · have ht2 := checkOutOfScope_types i ms f hf
              rw [htype] at ht2
              cases ht2
            · have ht2 := checkCapExceeded_types c i f hf
              rw [htype] at ht2
              cases ht2
            · simp [checkPriceEscalation] at hf
            · have ht2 := checkServiceDates_types c i ms f hf
              rw [htype] at ht2
              cases ht2

/-- Wall-clock date used by concrete reconciliation runs. -/
def nowDate : PyDate := ⟨2024, 1, 15⟩

/-- Contract whose vendor matches `c3Invoice`. -/
def c3Contract : Contract := { vendor := some (some "Acme Inc") }

/-- Contract whose vendor does not match `c3Invoice` (also not after
suffix-stripping). -/
def c3cContract : Contract := { vendor := some (some "Zeta LLC") }

/-- The invoice reconciled repeatedly in the C3 scenario; its composite key
is `"Acme Inc_INV-1_0.00"`. -/
def c3Invoice : Invoice :=
  { vendor := some (some "Acme Inc"), invoice_no := some (some "INV-1") }

/-- Engine state that has already seen the key of `c3Invoice`. -/
def c3wSt : EngineState := ⟨[], ["Acme Inc_INV-1_0.00"]⟩

/-- Engine state after reconciling `c3Invoice` from `c3wSt`. -/
def c3wSt2 : EngineState :=
  ⟨[], ["Acme Inc_INV-1_0.00", "Acme Inc_INV-1_0.00"]⟩

/-- The payment preview of the C3 witness run (no invoice date, so the
period starts at the wall clock; no matches, so zero totals). -/
def c3wPrev : NextPaymentPreview :=
  { period_start := "2024-01-15"
    period_end := "2024-02-14"
    items := []
    subtotal := some 0
    taxes := some 0
    total := some 0
    assumptions := previewAssumptions }

/-- The reconciliation result of the C3 witness run: exactly the
`duplicate_invoice` flag. -/
def c3wRes : ReconciliationResult :=
  { «matches» := []
    flags := [dupFlag c3Invoice]
    next_payment_preview := c3wPrev }

/-- Counterexample to C3 as stated: reconciling `c3Invoice` against a
vendor-mismatching contract terminates before rule validation — the
composite key is *not* recorded (the final engine state is unchanged,
contradicting "the key is recorded after every reconciliation"), and a
later reconciliation of an invoice with the same composite key still
raises no `duplicate_invoice` flag. -/
theorem c3_counterexample :
    reconcile simZero nowDate {} c3cContract c3Invoice =
      .ok (vendorMismatchResult, {}) ∧
    ({} : EngineState).processed_invoices = [] ∧
    (reconcile simZero nowDate {} c3Contract c3Invoice).map
      (fun pr => (pr.1.flags, pr.2.processed_invoices)) =
      .ok ([], ["Acme Inc_INV-1_0.00"]) := by
  refine ⟨by decide, rfl, by decide⟩

/-- Concrete instantiation of (amended) C3: the engine has seen the key of
`c3Invoice`; a reconciliation that reaches rule validation appends the key
again and raises the `duplicate_invoice` ERROR flag. -/
theorem c3_duplicate_detection_witness :
    matchVendor c3wSt c3Contract c3Invoice = .ok true ∧
    isContractActive c3Contract c3Invoice = true ∧
    (c3wSt2.processed_invoices =
        c3wSt.processed_invoices ++ [invoiceKey c3Invoice] ∧
      (invoiceKey c3Invoice ∈ c3wSt.processed_invoices →
        dupFlag c3Invoice ∈ c3wRes.flags) ∧
      (invoiceKey c3Invoice ∉ c3wSt.processed_invoices →
        ∀ f ∈ c3wRes.flags, f.type ≠ .duplicate_invoice)) :=
  ⟨by decide, by decide,
   c3_duplicate_detection simZero nowDate c3wSt c3Contract c3Invoice c3wRes
     c3wSt2 (by decide) (by decide) (by decide)⟩

/-! ## C4 — `reconcile` can raise (code bug) -/

/-- Contract of the C4 failing input: one term with item code `SRV-001`
and price $100. -/
def c4Contract : Contract :=
  { vendor := some (some "Acme Inc")
    terms := [{ item_code := some (some "SRV-001"), price := some (some 100) }] }

/-- Invoice of the C4 failing input: the line's item code matches the
contract term, but its `unit_price` value is `null` — a shape the
extraction schema explicitly produces. -/
def c4Invoice : Invoice :=
  { vendor := some (some "Acme Inc")
    lines := [{ item_code := some (some "SRV-001"), unit_price := some none }] }

/-- C4 (code bug): `reconcile` does *not* always complete.  On `c4Contract`
/ `c4Invoice` the vendor matches, the line matches by code, and the overpay
check runs `float(None)` on the null `unit_price` — a `TypeError` that the
rule's `except (ValueError, IndexError, KeyError)` does not catch, so the
exception escapes `reconcile` instead of becoming a flag. -/
theorem c4_reconcile_raises_typeerror :
    reconcile simZero nowDate {} c4Contract c4Invoice =
      .error .typeError := by
  decide

end Unspend
